import Mathlib

/-!
Shallow embedding of the `trueman2` matching engine
(`src/engine/src/trading_engine.rs`) and proofs about the claims of its
specification.

Conventions:
* `Uuid` values (user ids, token ids, market ids, order ids) are modelled
  as `Nat`.  `Uuid::new_v4()` is random; freshly generated ids are passed
  in as explicit parameters.
* `i64` quantities are modelled as `Int`.  Rust's `+=` on `i64` wraps in
  release builds; inside the balance ledger (`update_user_balance`), where
  overflow is claim-relevant, the wrap is modelled explicitly by `wrap64`.
  Elsewhere (matching arithmetic on order quantities) plain `Int` is used:
  those operations stay inside the `i64` range for in-range inputs.
* `HashMap`/`BTreeMap` are modelled as association lists.  For a
  `BTreeMap` the list order is the map's ascending key order; insertion
  keeps the list sorted, mirroring the map.  For a `HashMap` iteration
  order is irrelevant to every claim, and insertion appends.
* Redis publication, logging and snapshotting perform no engine-state
  mutation relevant to any claim and are omitted.
* `chrono::Utc::now()` timestamps are passed in as a parameter `now`.
-/

namespace Trueman

/-! ## Two's-complement 64-bit model -/

def i64max : Int := 2 ^ 63 - 1

def i64min : Int := -(2 ^ 63)

/-- Wrapping of an integer into the signed 64-bit range, the semantics of
Rust's `+=` on `i64` in release builds. -/
def wrap64 (x : Int) : Int := (x + 2 ^ 63) % 2 ^ 64 - 2 ^ 63

/-- `x` lies in the signed 64-bit range. -/
def inI64 (x : Int) : Prop := i64min ≤ x ∧ x ≤ i64max

instance (x : Int) : Decidable (inI64 x) := by unfold inI64; infer_instance

/-- `i64::saturating_sub`. -/
def satSub64 (a b : Int) : Int := max i64min (min i64max (a - b))

/-! ## Association lists (the `HashMap` / `BTreeMap` carriers) -/

def alookup {α β : Type} [DecidableEq α] (k : α) : List (α × β) → Option β
  | [] => none
  | (k', v) :: rest => if k' = k then some v else alookup k rest

/-! ## Data model (structs of `trading_engine.rs`) -/

inductive OrderType | Buy | Sell
deriving DecidableEq, Repr

inductive OrderKind | Market | Limit
deriving DecidableEq, Repr

inductive OrderStatus | Pending | PartiallyFilled | Filled | Cancelled
deriving DecidableEq, Repr

/-- `Order` of the source (field `id` is called `oid`). -/
structure EOrder where
  oid : Nat
  userId : Nat
  marketId : Nat
  orderType : OrderType
  orderKind : OrderKind
  price : Option Int
  quantity : Int
  filledQuantity : Int
  status : OrderStatus
  createdAt : Int
deriving DecidableEq, Repr

/-- `Trade` of the source.  The random `id : Uuid` is not modelled. -/
structure Trade where
  marketId : Nat
  buyerOrderId : Nat
  sellerOrderId : Nat
  buyerUserId : Nat
  sellerUserId : Nat
  price : Int
  quantity : Int
  timestamp : Int
deriving DecidableEq, Repr

structure Reservation where
  tokenId : Nat
  amount : Int
deriving DecidableEq, Repr

/-- One price level of a book side: the key of the `BTreeMap` entry and
its FIFO `VecDeque` (head = front). -/
abbrev Level := Int × List EOrder

/-- `OrderBook`: both sides are stored in ascending key order, the
iteration order of the underlying `BTreeMap`. -/
structure OrderBook where
  marketId : Nat
  bids : List Level
  asks : List Level
  lastUpdated : Int
deriving DecidableEq, Repr

/-- `MarketTicker` (the `f64` field `change_24h` is never read and is
omitted). -/
structure MarketTicker where
  marketId : Nat
  lastPrice : Int
  volume24h : Int
  high24h : Int
  low24h : Int
  timestamp : Int
deriving DecidableEq, Repr

structure TokenBalance where
  available : Int
  locked : Int
deriving DecidableEq, Repr

abbrev TokenBalances := List (Nat × TokenBalance)

structure UserBalance where
  userId : Nat
  tokenBalances : TokenBalances
deriving DecidableEq, Repr

abbrev Balances := List (Nat × UserBalance)

/-- `TokenInfo` (presentational fields `symbol`, `name`, `is_active`
omitted; `decimals : i32` is non-negative for every registry token and is
modelled as `Nat`). -/
structure TokenInfo where
  id : Nat
  decimals : Nat
deriving DecidableEq, Repr

/-- `MarketInfo` (presentational fields omitted). -/
structure MarketInfo where
  id : Nat
  baseCurrency : TokenInfo
  quoteCurrency : TokenInfo
  minOrderSize : Int
  tickSize : Int
deriving DecidableEq, Repr

/-- The engine state owned by `TradingEngine` (redis handles, sequence
counters and the snapshot counter are not part of any claim). -/
structure EngineState where
  orderbooks : List (Nat × OrderBook)
  balances : Balances
  tickers : List (Nat × MarketTicker)
  markets : List (Nat × MarketInfo)
deriving DecidableEq, Repr

/-! ## Request / response types (`redis_manager.rs`) -/

structure OrderRequest where
  requestId : String
  userId : Nat
  marketId : Nat
  orderType : String
  orderKind : String
  price : Option Int
  quantity : Int
  timestamp : Int
deriving DecidableEq, Repr

structure TradeInfo where
  price : Int
  quantity : Int
  timestamp : Int
deriving DecidableEq, Repr

structure OrderResponse where
  requestId : String
  success : Bool
  status : String
  orderId : Option Nat
  message : String
  filledQuantity : Option Int
  remainingQuantity : Option Int
  averagePrice : Option Int
  trades : Option (List TradeInfo)
deriving DecidableEq, Repr

structure BalanceRequest where
  requestId : String
  userId : Nat
  tokenId : Nat
  amount : Int
  timestamp : Int
deriving DecidableEq, Repr

structure UserTokenBalance where
  tokenId : Nat
  available : Int
  locked : Int
deriving DecidableEq, Repr

structure BalanceResponse where
  requestId : String
  success : Bool
  message : String
  newBalance : Int
  balances : Option (List UserTokenBalance)
deriving DecidableEq, Repr

structure CancelOrderRequest where
  requestId : String
  userId : Nat
  orderId : Nat
  marketId : Nat
  timestamp : Int
deriving DecidableEq, Repr

/-! ## Balance ledger -/

/-- Update a user's token map: the `entry(token).or_insert({0,0})` pattern
followed by `+=` on both fields (which wraps in release builds). -/
def updTokenBalances (tok : Nat) (da dl : Int) : TokenBalances → TokenBalances
  | [] => [(tok, ⟨wrap64 da, wrap64 dl⟩)]
  | (k, b) :: rest =>
    if k = tok then (k, ⟨wrap64 (b.available + da), wrap64 (b.locked + dl)⟩) :: rest
    else (k, b) :: updTokenBalances tok da dl rest

/-- `TradingEngine::update_user_balance` (the queued `balance_updated`
event is external I/O and not modelled). -/
def update_user_balance (bals : Balances) (u tok : Nat) (da dl : Int) : Balances :=
  match bals with
  | [] => [(u, ⟨u, updTokenBalances tok da dl []⟩)]
  | (k, ub) :: rest =>
    if k = u then (k, ⟨ub.userId, updTokenBalances tok da dl ub.tokenBalances⟩) :: rest
    else (k, ub) :: update_user_balance rest u tok da dl

/-- `available` stored in one token map (`0` when absent). -/
def tbAvail (tb : TokenBalances) (tok : Nat) : Int :=
  match alookup tok tb with
  | none => 0
  | some b => b.available

/-- `locked` stored in one token map (`0` when absent). -/
def tbLocked (tb : TokenBalances) (tok : Nat) : Int :=
  match alookup tok tb with
  | none => 0
  | some b => b.locked

/-- `available` of a `(user, token)` pair, `0` when absent — the
`…map(|b| b.available).unwrap_or(0)` pattern (also
`TradingEngine::free_amount`). -/
def availOf (bals : Balances) (u tok : Nat) : Int :=
  match alookup u bals with
  | none => 0
  | some ub =>
    match alookup tok ub.tokenBalances with
    | none => 0
    | some b => b.available

/-- `locked` of a `(user, token)` pair, `0` when absent. -/
def lockedOf (bals : Balances) (u tok : Nat) : Int :=
  match alookup u bals with
  | none => 0
  | some ub =>
    match alookup tok ub.tokenBalances with
    | none => 0
    | some b => b.locked


/-- `TradingEngine::lock`. -/
def lock (bals : Balances) (u tok : Nat) (amount : Int) : Except String Balances :=
  if amount ≤ 0 then .ok bals
  else if availOf bals u tok < amount then .error "insufficient free balance to lock"
  else .ok (update_user_balance bals u tok (-amount) amount)

/-- `TradingEngine::unlock`. -/
def unlock (bals : Balances) (u tok : Nat) (amount : Int) : Balances :=
  if amount ≤ 0 then bals
  else update_user_balance bals u tok amount (-amount)

/-! ## Fixed-point arithmetic -/

/-- `TradingEngine::safe_multiply_divide`.  The `U256` intermediate is
exact here because `|price * quantity| < 2^126`; division truncates,
matching `U256` division on the non-negative operands that pass the
sign check. -/
def safe_multiply_divide (price quantity : Int) (decimals : Nat) : Except String Int :=
  if price < 0 ∨ quantity < 0 then .error "Price and quantity must be non-negative"
  else if decimals > 18 then .error "Decimals exceeds maximum supported (18)"
  else
    let r : Nat := (price.toNat * quantity.toNat) / 10 ^ decimals
    if (r : Int) > i64max then .error "Result exceeds i64::MAX"
    else .ok (r : Int)

/-- Value of an `Except`, defaulting to `0`.  Used where the source calls
`.unwrap()` on a `safe_multiply_divide` result: there the source panics on
an error; the claims below never reach that case. -/
def exceptD (e : Except String Int) : Int :=
  match e with
  | .ok v => v
  | .error _ => 0

/-! ## Matching -/

/-- The `Trade` literal built inside the matching loops (identical in
`execute_market_order` and `execute_limit_order`). -/
def mkTrade (tk m : EOrder) (price q now : Int) : Trade :=
  { marketId := tk.marketId
    buyerOrderId := if tk.orderType = .Buy then tk.oid else m.oid
    sellerOrderId := if tk.orderType = .Sell then tk.oid else m.oid
    buyerUserId := if tk.orderType = .Buy then tk.userId else m.userId
    sellerUserId := if tk.orderType = .Sell then tk.userId else m.userId
    price := price
    quantity := q
    timestamp := now }

/-- Result of matching against one price level's queue. -/
structure QueueRes where
  rem : Int
  fq : Int
  trades : List Trade
  matched : List EOrder
  queue : List EOrder
deriving DecidableEq, Repr

/-- The inner `while let Some(mut matching_order) = order_queue.pop_front()`
loop of both executors, at one price level: `rem` is the taker's
`remaining_quantity`, `fq` its `filled_quantity`, `queue` the final state
of the level's queue.  Note that the source pops a maker *before* testing
`remaining_quantity == 0`, so the maker popped on that final test is
dropped from the queue. -/
def matchQueue (tk : EOrder) (now price : Int) :
    Int → Int → List EOrder → QueueRes
  | rem, fq, [] => ⟨rem, fq, [], [], []⟩
  | rem, fq, m :: rest =>
    if rem = 0 then ⟨rem, fq, [], [], rest⟩
    else
      let avail := m.quantity - m.filledQuantity
      let q := min rem avail
      let t := mkTrade tk m price q now
      let m1 : EOrder := { m with filledQuantity := m.filledQuantity + q }
      if m1.filledQuantity ≥ m1.quantity then
        let r := matchQueue tk now price (rem - q) (fq + q) rest
        ⟨r.rem, r.fq, t :: r.trades, { m1 with status := .Filled } :: r.matched, r.queue⟩
      else
        ⟨rem - q, fq + q, [t], [{ m1 with status := .PartiallyFilled }],
         { m1 with status := .PartiallyFilled } :: rest⟩

/-- Result of the loop over the selected price levels. -/
structure LevelsRes where
  rem : Int
  fq : Int
  trades : List Trade
  matched : List EOrder
  levels : List Level
deriving DecidableEq, Repr

/-- The outer `for price in …` loop of both executors over the selected
price levels, in iteration order.  Empty queues are removed
(`prices_to_remove`). -/
def matchLevels (tk : EOrder) (now : Int) :
    Int → Int → List Level → LevelsRes
  | rem, fq, [] => ⟨rem, fq, [], [], []⟩
  | rem, fq, (p, queue) :: rest =>
    if rem = 0 then ⟨rem, fq, [], [], (p, queue) :: rest⟩
    else
      let r1 := matchQueue tk now p rem fq queue
      let r2 := matchLevels tk now r1.rem r1.fq rest
      ⟨r2.rem, r2.fq, r1.trades ++ r2.trades, r1.matched ++ r2.matched,
       if r1.queue.isEmpty then r2.levels else (p, r1.queue) :: r2.levels⟩

/-- Write the processed eligible levels back into the full `BTreeMap`
side: a level whose key satisfies `pred` was iterated (its queue replaced,
or the level removed when emptied); other levels are untouched. -/
def mergeSide (orig : List Level) (pred : Int → Bool) (updated : List Level) : List Level :=
  match orig with
  | [] => []
  | (p, q) :: rest =>
    if pred p then
      match alookup p updated with
      | some q' => (p, q') :: mergeSide rest pred updated
      | none => mergeSide rest pred updated
    else (p, q) :: mergeSide rest pred updated

/-- `same_side.entry(order_price).or_insert_with(VecDeque::new)` followed
by `push_back`: append to the queue at that key, creating the level at its
sorted `BTreeMap` position when absent. -/
def insertTail (side : List Level) (price : Int) (o : EOrder) : List Level :=
  match side with
  | [] => [(price, [o])]
  | (p, q) :: rest =>
    if p = price then (p, q ++ [o]) :: rest
    else if price < p then (price, [o]) :: (p, q) :: rest
    else (p, q) :: insertTail rest price o

/-- Result of one executor call. -/
structure ExecRes where
  taker : EOrder
  trades : List Trade
  matched : List EOrder
  book : OrderBook
deriving DecidableEq, Repr

/-- `TradingEngine::execute_limit_order`.  Returns the updated taker, the
trades, the matched-maker copies, and the updated book.  The source calls
`order.price.expect(…)` and panics on `None`; that case is modelled as a
no-op and is unreachable in the claims below. -/
def execute_limit_order (tk : EOrder) (now : Int) (ob : OrderBook) : ExecRes :=
  match tk.price with
  | none => ⟨tk, [], [], ob⟩
  | some orderPrice =>
    let pred : Int → Bool :=
      match tk.orderType with
      | .Buy => fun p => p ≤ orderPrice
      | .Sell => fun p => orderPrice ≤ p
    let eligible : List Level :=
      match tk.orderType with
      | .Buy => ob.asks.filter (fun l => pred l.1)
      | .Sell => (ob.bids.filter (fun l => pred l.1)).reverse
    let r := matchLevels tk now tk.quantity tk.filledQuantity eligible
    let oppositeSide :=
      match tk.orderType with
      | .Buy => mergeSide ob.asks pred r.levels
      | .Sell => mergeSide ob.bids pred r.levels
    let tk1 : EOrder := { tk with filledQuantity := r.fq }
    let sameSide :=
      match tk.orderType with
      | .Buy => ob.bids
      | .Sell => ob.asks
    let sameSide' :=
      if r.rem > 0 then
        insertTail sameSide orderPrice
          { tk1 with quantity := r.rem, filledQuantity := 0, status := .Pending }
      else sameSide
    let tk2 : EOrder :=
      { tk1 with status :=
          if tk1.filledQuantity ≥ tk1.quantity then .Filled
          else if tk1.filledQuantity > 0 then .PartiallyFilled
          else .Pending }
    let ob' :=
      match tk.orderType with
      | .Buy => { ob with bids := sameSide', asks := oppositeSide }
      | .Sell => { ob with bids := oppositeSide, asks := sameSide' }
    ⟨tk2, r.trades, r.matched, ob'⟩

/-- `TradingEngine::execute_market_order`: iterate every opposite level
(ascending asks for a Buy, descending bids for a Sell). -/
def execute_market_order (tk : EOrder) (now : Int) (ob : OrderBook) : ExecRes :=
  let eligible : List Level :=
    match tk.orderType with
    | .Buy => ob.asks
    | .Sell => ob.bids.reverse
  let r := matchLevels tk now tk.quantity tk.filledQuantity eligible
  let oppositeSide :=
    match tk.orderType with
    | .Buy => mergeSide ob.asks (fun _ => true) r.levels
    | .Sell => mergeSide ob.bids (fun _ => true) r.levels
  let tk1 : EOrder := { tk with filledQuantity := r.fq }
  let tk2 : EOrder :=
    { tk1 with status :=
        if tk1.filledQuantity ≥ tk1.quantity then .Filled
        else if tk1.filledQuantity > 0 then .PartiallyFilled
        else .Cancelled }
  let ob' :=
    match tk.orderType with
    | .Buy => { ob with asks := oppositeSide }
    | .Sell => { ob with bids := oppositeSide }
  ⟨tk2, r.trades, r.matched, ob'⟩

/-! ## Settlement -/

/-- One iteration of the `for trade in trades` loop of
`TradingEngine::update_balances_from_trades`. -/
def settleTrade (bals : Balances) (market : MarketInfo) (t : Trade) : Balances :=
  let quoteId := market.quoteCurrency.id
  let baseId := market.baseCurrency.id
  let cost := exceptD (safe_multiply_divide t.price t.quantity market.baseCurrency.decimals)
  let buyerQuoteLockedNow := lockedOf bals t.buyerUserId quoteId
  let buyerUseLocked := min buyerQuoteLockedNow cost
  let bals1 := update_user_balance bals t.buyerUserId quoteId 0 (-buyerUseLocked)
  let bals2 := update_user_balance bals1 t.buyerUserId baseId t.quantity 0
  let sellerBaseLockedNow := lockedOf bals2 t.sellerUserId baseId
  let sellerUseLocked := min sellerBaseLockedNow t.quantity
  let bals3 := update_user_balance bals2 t.sellerUserId baseId 0 (-sellerUseLocked)
  update_user_balance bals3 t.sellerUserId quoteId cost 0

/-- `TradingEngine::update_balances_from_trades`. -/
def update_balances_from_trades (bals : Balances) (trades : List Trade)
    (market : MarketInfo) : Balances :=
  trades.foldl (fun b t => settleTrade b market t) bals

/-- `TradingEngine::update_ticker_from_trades`. -/
def update_ticker_from_trades (tickers : List (Nat × MarketTicker))
    (trades : List Trade) (now : Int) : List (Nat × MarketTicker) :=
  match trades.head? with
  | none => tickers
  | some t0 =>
    let mid := t0.marketId
    let base : MarketTicker :=
      match alookup mid tickers with
      | some tkr => tkr
      | none => ⟨mid, 0, 0, 0, 0, now⟩
    match trades.getLast? with
    | none => tickers
    | some last =>
      let t1 : MarketTicker :=
        { base with lastPrice := last.price, timestamp := last.timestamp }
      let t2 : MarketTicker :=
        if t1.high24h = 0 ∨ last.price > t1.high24h
        then { t1 with high24h := last.price } else t1
      let t3 : MarketTicker :=
        if t2.low24h = 0 ∨ last.price < t2.low24h
        then { t2 with low24h := last.price } else t2
      let t4 : MarketTicker :=
        { t3 with volume24h := t3.volume24h + (trades.map (·.quantity)).sum }
      match alookup mid tickers with
      | some _ =>
        tickers.map (fun e => if e.1 = mid then (mid, t4) else e)
      | none => tickers ++ [(mid, t4)]

/-- `TradingEngine::calculate_average_price`: total value of the trades
over total quantity, rescaled by `10^base_decimals`, `None` on any error
or when there are no trades. -/
def calculate_average_price (markets : List (Nat × MarketInfo))
    (trades : List Trade) (marketId : Nat) : Option Int :=
  if trades.isEmpty then none
  else
    match alookup marketId markets with
    | none => none
    | some market =>
      let d := market.baseCurrency.decimals
      match trades.foldlM
          (fun (acc : Int × Int) t =>
            (safe_multiply_divide t.price t.quantity d).toOption.map
              (fun v => (acc.1 + v, acc.2 + t.quantity)))
          ((0 : Int), (0 : Int)) with
      | none => none
      | some (totalValue, totalQuantity) =>
        if totalQuantity = 0 then none
        else if d > 18 then none
        else
          let r : Nat := (totalValue.toNat * 10 ^ d) / totalQuantity.toNat
          if (r : Int) > i64max then none else some (r : Int)

/-! ## Admission and reservation -/

/-- Remaining liquidity summed over a level's queue (the
`orders.iter().map(|o| o.quantity - o.filled_quantity).sum()` expression).
-/
def levelAvail (q : List EOrder) : Int :=
  (q.map (fun o => o.quantity - o.filledQuantity)).sum

/-- The cost-accumulating walk over the asks inside
`TradingEngine::estimate_market_buy_price`.  Returns
`(remaining_quantity, total_cost)` after the loop, or `none` when a cost
computation fails. -/
def walkAsks (decimals : Nat) : Int → Int → List Level → Option (Int × Int)
  | rem, total, [] => some (rem, total)
  | rem, total, (price, orders) :: rest =>
    if rem ≤ 0 then some (rem, total)
    else
      let quantityToBuy := min rem (levelAvail orders)
      match safe_multiply_divide price quantityToBuy decimals with
      | .error _ => none
      | .ok cost => walkAsks decimals (rem - quantityToBuy) (total + cost) rest

/-- `TradingEngine::estimate_market_buy_price`.  When the walk covers the
quantity the result is the truncated volume-weighted average ask price;
when it does not and asks exist, the highest ask plus a 10% buffer; `none`
when there is no book, no market, no asks at all, or on overflow.  (The
source divides by `U256::from(quantity as u64)`, which panics for
`quantity = 0`; the `Nat` division here yields `0` in that unreachable
case.) -/
def estimate_market_buy_price (st : EngineState) (marketId : Nat)
    (quantity : Int) : Option Int :=
  match alookup marketId st.orderbooks with
  | none => none
  | some ob =>
    match alookup marketId st.markets with
    | none => none
    | some market =>
      match walkAsks market.baseCurrency.decimals quantity 0 ob.asks with
      | none => none
      | some (rem, totalCost) =>
        if rem > 0 then
          match ob.asks.getLast? with
          | some (highestPrice, _) => some (highestPrice + Int.tdiv highestPrice 10)
          | none => none
        else
          let d := market.baseCurrency.decimals
          if d > 18 then none
          else
            let r : Nat := (totalCost.toNat * 10 ^ d) / quantity.toNat
            if (r : Int) > i64max then none else some (r : Int)

/-- The reservation computed by the first half of
`TradingEngine::validate_and_lock_order_balance` (required amount and
token, before the balance check and the `lock`). -/
def required_reservation (st : EngineState) (order : EOrder)
    (market : MarketInfo) : Except String Reservation :=
  match order.orderType with
  | .Buy =>
    let requiredQuote : Except String Int :=
      match order.orderKind with
      | .Limit =>
        match order.price with
        | none => .error "Limit buy requires price"
        | some price => safe_multiply_divide price order.quantity market.baseCurrency.decimals
      | .Market =>
        match estimate_market_buy_price st order.marketId order.quantity with
        | none => .error "No liquidity available for market buy"
        | some est => safe_multiply_divide est order.quantity market.baseCurrency.decimals
    match requiredQuote with
    | .error e => .error e
    | .ok amt => .ok ⟨market.quoteCurrency.id, amt⟩
  | .Sell => .ok ⟨market.baseCurrency.id, order.quantity⟩

/-- `TradingEngine::validate_and_lock_order_balance`.  On success, the
reservation together with the balances after the `lock`. -/
def validate_and_lock_order_balance (st : EngineState) (order : EOrder) :
    Except String (Reservation × Balances) :=
  match alookup order.marketId st.markets with
  | none => .error "Market not found"
  | some market =>
    match alookup order.userId st.balances with
    | none => .error "No balance found for user"
    | some userBalance =>
      match required_reservation st order market with
      | .error e => .error e
      | .ok r =>
        let has : Int := tbAvail userBalance.tokenBalances r.tokenId
        if has < r.amount then .error "Insufficient balance"
        else
          match lock st.balances order.userId r.tokenId r.amount with
          | .error e => .error e
          | .ok bals => .ok (r, bals)

/-! ## Request processing -/

/-- `TradingEngine::create_order_from_request` (`oid` stands for the
freshly generated `Uuid::new_v4()`). -/
def create_order_from_request (req : OrderRequest) (oid : Nat) : EOrder :=
  { oid := oid
    userId := req.userId
    marketId := req.marketId
    orderType := if req.orderType = "Buy" then .Buy else .Sell
    orderKind := if req.orderKind = "Market" then .Market else .Limit
    price := req.price
    quantity := req.quantity
    filledQuantity := 0
    status := .Pending
    createdAt := req.timestamp }

def rejectedOrderResponse (req : OrderRequest) (msg : String) : OrderResponse :=
  { requestId := req.requestId
    success := false
    status := "REJECTED"
    orderId := none
    message := msg
    filledQuantity := none
    remainingQuantity := none
    averagePrice := none
    trades := none }

/-- Replace the book stored for a market (in-place `BTreeMap` mutation
through `get_mut`). -/
def setOrderbook (obs : List (Nat × OrderBook)) (mid : Nat) (ob : OrderBook) :
    List (Nat × OrderBook) :=
  obs.map (fun e => if e.1 = mid then (mid, ob) else e)

/-- Result of `match_order`. -/
structure MatchOrderRes where
  state : EngineState
  taker : EOrder
  matched : List EOrder
  trades : List Trade
deriving DecidableEq, Repr

/-- `TradingEngine::match_order`: create the book when absent, dispatch on
the order kind, settle trades and update the ticker when trades exist,
bump the book timestamp. -/
def match_order (st : EngineState) (tk : EOrder) (now : Int) : MatchOrderRes :=
  match alookup tk.marketId st.markets with
  | none => ⟨st, { tk with status := .Cancelled }, [], []⟩
  | some market =>
    let st0 : EngineState :=
      match alookup tk.marketId st.orderbooks with
      | some _ => st
      | none => { st with orderbooks := st.orderbooks ++ [(tk.marketId, ⟨tk.marketId, [], [], now⟩)] }
    let ob : OrderBook :=
      match alookup tk.marketId st0.orderbooks with
      | some ob => ob
      | none => ⟨tk.marketId, [], [], now⟩
    let ex :=
      match tk.orderKind with
      | .Market => execute_market_order tk now ob
      | .Limit => execute_limit_order tk now ob
    let st1 : EngineState :=
      { st0 with orderbooks := setOrderbook st0.orderbooks tk.marketId { ex.book with lastUpdated := now } }
    let st2 : EngineState :=
      if ex.trades.isEmpty then st1
      else
        { st1 with
          balances := update_balances_from_trades st1.balances ex.trades market
          tickers := update_ticker_from_trades st1.tickers ex.trades now }
    ⟨st2, ex.taker, ex.matched, ex.trades⟩

/-- `TradingEngine::process_order`: market lookup, validation and funds
lock, matching, market-order reservation reconciliation, reply.  `oid` is
the fresh order id and `now` the engine clock. -/
def process_order (st : EngineState) (req : OrderRequest) (oid : Nat) (now : Int) :
    OrderResponse × EngineState :=
  let order := create_order_from_request req oid
  match alookup order.marketId st.markets with
  | none => (rejectedOrderResponse req "Market not found", st)
  | some _ =>
    match validate_and_lock_order_balance st order with
    | .error msg => (rejectedOrderResponse req msg, st)
    | .ok (reservation, bals1) =>
      let stL : EngineState := { st with balances := bals1 }
      let mo := match_order stL order now
      let updatedOrder := mo.taker
      let trades := mo.trades
      let st2 := mo.state
      let st3 : EngineState :=
        if updatedOrder.orderKind = .Market then
          match updatedOrder.orderType with
          | .Buy =>
            match alookup updatedOrder.marketId st2.markets with
            | none => st2
            | some market =>
              let executedCost := trades.foldl
                (fun acc t =>
                  match safe_multiply_divide t.price t.quantity market.baseCurrency.decimals with
                  | .ok c => acc + c
                  | .error _ => acc) 0
              if reservation.tokenId = market.quoteCurrency.id then
                let refund := satSub64 reservation.amount executedCost
                if refund > 0 then
                  { st2 with balances := unlock st2.balances updatedOrder.userId reservation.tokenId refund }
                else st2
              else st2
          | .Sell =>
            let remaining := updatedOrder.quantity - updatedOrder.filledQuantity
            match alookup updatedOrder.marketId st2.markets with
            | none => st2
            | some market =>
              if remaining > 0 ∧ reservation.tokenId = market.baseCurrency.id then
                { st2 with balances := unlock st2.balances updatedOrder.userId reservation.tokenId remaining }
              else st2
        else st2
      let resp : OrderResponse :=
        { requestId := req.requestId
          success := true
          status := if updatedOrder.filledQuantity = updatedOrder.quantity
                    then "FILLED" else "PARTIALLY_FILLED"
          orderId := some updatedOrder.oid
          message := "Order processed successfully"
          filledQuantity := some updatedOrder.filledQuantity
          remainingQuantity := some (updatedOrder.quantity - updatedOrder.filledQuantity)
          averagePrice := calculate_average_price st3.markets trades updatedOrder.marketId
          trades := some (trades.map (fun t => ⟨t.price, t.quantity, t.timestamp⟩)) }
      (resp, st3)

/-! ## Balance requests -/

/-- `TradingEngine::process_deposit`.  The source first materialises the
`(user, token)` entry through the `entry(..).or_insert(..)` reads, then
calls `update_user_balance(user, token, amount, 0)`; the net effect on the
map is the single update below (the pre-created entry holds `(0, 0)` and
`update_user_balance` itself inserts a missing entry). -/
def process_deposit (st : EngineState) (req : BalanceRequest) :
    BalanceResponse × EngineState :=
  let bals := update_user_balance st.balances req.userId req.tokenId req.amount 0
  let newBalance := availOf bals req.userId req.tokenId
  ({ requestId := req.requestId
     success := true
     message := "Successfully deposited " ++ toString req.amount
     newBalance := newBalance
     balances := none },
   { st with balances := bals })

/-- `TradingEngine::process_withdrawal`: requires an existing
`(user, token)` balance entry with `available >= amount`. -/
def process_withdrawal (st : EngineState) (req : BalanceRequest) :
    BalanceResponse × EngineState :=
  let fail : BalanceResponse :=
    { requestId := req.requestId
      success := false
      message := "Insufficient balance or user not found"
      newBalance := 0
      balances := none }
  match alookup req.userId st.balances with
  | none => (fail, st)
  | some ub =>
    match alookup req.tokenId ub.tokenBalances with
    | none => (fail, st)
    | some tb =>
      if tb.available ≥ req.amount then
        let bals := update_user_balance st.balances req.userId req.tokenId (-req.amount) 0
        ({ requestId := req.requestId
           success := true
           message := "Successfully withdrew " ++ toString req.amount
           newBalance := availOf bals req.userId req.tokenId
           balances := none },
         { st with balances := bals })
      else (fail, st)

/-! ## Cancellation -/

/-- Remove the first order with the given id from a `VecDeque`. -/
def removeFirst (oid : Nat) : List EOrder → Option (EOrder × List EOrder)
  | [] => none
  | o :: rest =>
    if o.oid = oid then some (o, rest)
    else
      match removeFirst oid rest with
      | some (o', rest') => some (o', o :: rest')
      | none => none

/-- Scan the levels of one side in map order for the order id; the level
is kept even when its queue becomes empty (the source removes only the
queue element). -/
def removeFromLevels (oid : Nat) : List Level → Option (EOrder × List Level)
  | [] => none
  | (p, q) :: rest =>
    match removeFirst oid q with
    | some (o, q') => some (o, (p, q') :: rest)
    | none =>
      match removeFromLevels oid rest with
      | some (o, rest') => some (o, (p, q) :: rest')
      | none => none

/-- `TradingEngine::remove_order_from_orderbook`: bids first, then asks. -/
def remove_order_from_orderbook (st : EngineState) (marketId oid : Nat) :
    Option (EOrder × EngineState) :=
  match alookup marketId st.orderbooks with
  | none => none
  | some ob =>
    match removeFromLevels oid ob.bids with
    | some (o, bids') =>
      some (o, { st with orderbooks := setOrderbook st.orderbooks marketId { ob with bids := bids' } })
    | none =>
      match removeFromLevels oid ob.asks with
      | some (o, asks') =>
        some (o, { st with orderbooks := setOrderbook st.orderbooks marketId { ob with asks := asks' } })
      | none => none

/-- `TradingEngine::process_cancel_order`.  Note: the source removes the
order from the book *before* the ownership check, and does not reinsert it
when the check fails.  Where the source indexes `self.markets[..]`
(panicking when absent) the model skips the unlock; every claim below has
the market present. -/
def process_cancel_order (st : EngineState) (req : CancelOrderRequest) :
    OrderResponse × EngineState :=
  match remove_order_from_orderbook st req.marketId req.orderId with
  | none =>
    ({ requestId := req.requestId
       success := false
       status := "REJECTED"
       orderId := none
       message := "Order not found"
       filledQuantity := none
       remainingQuantity := none
       averagePrice := none
       trades := none }, st)
  | some (order, st1) =>
    if order.userId ≠ req.userId then
      ({ requestId := req.requestId
         success := false
         status := "REJECTED"
         orderId := some order.oid
         message := "Order does not belong to user"
         filledQuantity := some order.filledQuantity
         remainingQuantity := some (order.quantity - order.filledQuantity)
         averagePrice := none
         trades := none }, st1)
    else
      let remaining := order.quantity - order.filledQuantity
      let st2 : EngineState :=
        match order.orderType with
        | .Buy =>
          if order.orderKind = .Limit then
            match order.price with
            | some price =>
              match alookup order.marketId st1.markets with
              | some market =>
                match safe_multiply_divide price remaining market.baseCurrency.decimals with
                | .ok quoteAmount =>
                  { st1 with balances := unlock st1.balances order.userId market.quoteCurrency.id quoteAmount }
                | .error _ => st1
              | none => st1
            | none => st1
          else st1
        | .Sell =>
          if order.orderKind = .Limit then
            match alookup order.marketId st1.markets with
            | some market =>
              { st1 with balances := unlock st1.balances order.userId market.baseCurrency.id remaining }
            | none => st1
          else st1
      ({ requestId := req.requestId
         success := true
         status := "CANCELLED"
         orderId := some order.oid
         message := "Order cancelled successfully"
         filledQuantity := some order.filledQuantity
         remainingQuantity := some (order.quantity - order.filledQuantity)
         averagePrice := none
         trades := some [] }, st2)

/-! ## Analysis definitions -/

/-- Contribution of one token map to the per-token conservation sum. -/
def tokenContribution (tb : TokenBalances) (tok : Nat) : Int :=
  match alookup tok tb with
  | some b => b.available + b.locked
  | none => 0

/-- Sum over all users of `available + locked` for one token. -/
def tokenSum (bals : Balances) (tok : Nat) : Int :=
  (bals.map (fun e => tokenContribution e.2.tokenBalances tok)).sum

/-- Modelled from the spec: the Buy-Market reservation the spec
prescribes — "walk the ask side top-down summing
`notional(level_price, consumed_at_level)` until `quantity` is covered; if
the book cannot cover, reject `NoLiquidity`".  Used only for comparison
with the source's `estimate_market_buy_price`-based reservation. -/
def spec_walk (decimals : Nat) : Int → Int → List Level → Option Int
  | rem, total, [] => if rem ≤ 0 then some total else none
  | rem, total, (price, orders) :: rest =>
    if rem ≤ 0 then some total
    else
      let consumed := min rem (levelAvail orders)
      match safe_multiply_divide price consumed decimals with
      | .error _ => none
      | .ok cost => spec_walk decimals (rem - consumed) (total + cost) rest

/-- Does any level of a side contain an order with this id? -/
def sideHasOid (side : List Level) (oid : Nat) : Bool :=
  side.any (fun l => l.2.any (fun o => o.oid = oid))

/-- Does the market's book contain an order with this id? -/
def bookHasOid (st : EngineState) (marketId oid : Nat) : Bool :=
  match alookup marketId st.orderbooks with
  | none => false
  | some ob => sideHasOid ob.bids oid || sideHasOid ob.asks oid

/-- The maker's order id recorded in a trade, given the taker's side. -/
def makerOidOf (side : OrderType) (t : Trade) : Nat :=
  match side with
  | .Buy => t.sellerOrderId
  | .Sell => t.buyerOrderId

/-- Original remaining quantity of the order with the given id inside one
queue (`0` when absent). -/
def queueRemOf (q : List EOrder) (oid : Nat) : Int :=
  match q with
  | [] => 0
  | o :: rest => if o.oid = oid then o.quantity - o.filledQuantity else queueRemOf rest oid

/-- Original remaining quantity of the order with the given id across a
list of levels (`0` when absent). -/
def levelsRemOf (levels : List Level) (oid : Nat) : Int :=
  match levels with
  | [] => 0
  | (_, q) :: rest =>
    if q.any (fun o => o.oid = oid) then queueRemOf q oid else levelsRemOf rest oid

/-- Check that every trade quantity is the minimum of the taker's
remaining quantity before the trade and the maker's remaining quantity,
with the taker's remaining decreasing by each trade. -/
def tradesQtyOk (side : OrderType) (remOf : Nat → Int) : Int → List Trade → Bool
  | _, [] => true
  | rem, t :: ts =>
    (t.quantity == min rem (remOf (makerOidOf side t))) &&
    tradesQtyOk side remOf (rem - t.quantity) ts

/-- All order ids appearing in a list of levels, in order. -/
def levelsOids (levels : List Level) : List Nat :=
  levels.flatMap (fun l => l.2.map (·.oid))

/-- Book-side well-formedness: every resting order's `price` field equals
its level key. -/
def levelsWF (levels : List Level) : Prop :=
  ∀ l ∈ levels, ∀ o ∈ l.2, o.price = some l.1

/-- An order is resting somewhere in a side. -/
def sideContains (side : List Level) (o : EOrder) : Prop :=
  ∃ l ∈ side, o ∈ l.2

/-- The `(user, token)` entry is materialised in the ledger. -/
def hasEntry (bals : Balances) (u tok : Nat) : Bool :=
  match alookup u bals with
  | none => false
  | some ub => (alookup tok ub.tokenBalances).isSome

/-- A comfortable sub-range of `i64`: sums of three such values cannot
wrap. -/
def small64 (x : Int) : Prop := -(2 ^ 61) ≤ x ∧ x ≤ 2 ^ 61

instance (x : Int) : Decidable (small64 x) := by unfold small64; infer_instance

/-! ## Concrete scenarios used by counterexamples and witnesses -/

/-- Market 1: base token 10 (0 decimals), quote token 20 (0 decimals),
`min_order_size = 1`, `tick_size = 1`. -/
def mkUnit : MarketInfo := ⟨1, ⟨10, 0⟩, ⟨20, 0⟩, 1, 1⟩

/-- Market 1 with `tick_size = 10` and `min_order_size = 5`. -/
def mkTicked : MarketInfo := ⟨1, ⟨10, 0⟩, ⟨20, 0⟩, 5, 10⟩

def cxMaker1 : EOrder := ⟨101, 2, 1, .Sell, .Limit, some 10, 50, 0, .Pending, 0⟩

def cxMaker2 : EOrder := ⟨102, 3, 1, .Sell, .Limit, some 11, 50, 0, .Pending, 0⟩

/-- Asks `[(10, 50 @ maker 101), (11, 50 @ maker 102)]`, empty bids. -/
def cxBook : OrderBook := ⟨1, [], [(10, [cxMaker1]), (11, [cxMaker2])], 0⟩

/-- Buyer (user 1) holds 600 quote available; the two makers hold their
locked base. -/
def cxState : EngineState :=
  { orderbooks := [(1, cxBook)]
    balances := [(1, ⟨1, [(20, ⟨600, 0⟩)]⟩),
                 (2, ⟨2, [(10, ⟨0, 50⟩)]⟩),
                 (3, ⟨3, [(10, ⟨0, 50⟩)]⟩)]
    tickers := []
    markets := [(1, mkUnit)] }

/-- Buy Market for 60 base by user 1. -/
def cxReq : OrderRequest := ⟨"r1", 1, 1, "Buy", "Market", none, 60, 5⟩

/-- Same book but the buyer needs more than the whole ask side: quantity
100 against 50 available. -/
def cxReqBig : OrderRequest := ⟨"r2", 1, 1, "Buy", "Market", none, 100, 5⟩

/-- A book with a single ask level `(10, 50)` and a rich buyer. -/
def cxStateThin : EngineState :=
  { orderbooks := [(1, ⟨1, [], [(10, [cxMaker1])], 0⟩)]
    balances := [(1, ⟨1, [(20, ⟨2000, 0⟩)]⟩), (2, ⟨2, [(10, ⟨0, 50⟩)]⟩)]
    tickers := []
    markets := [(1, mkUnit)] }

/-- State for the admission-validation counterexample: ticked market, no
book yet, buyer with plenty of quote. -/
def cxStateTicked : EngineState :=
  { orderbooks := []
    balances := [(1, ⟨1, [(20, ⟨1000, 0⟩)]⟩)]
    tickers := []
    markets := [(1, mkTicked)] }

/-- Limit Buy at price 15 (not a multiple of tick 10) for quantity 1
(below `min_order_size` 5). -/
def cxReqOffTick : OrderRequest := ⟨"r3", 1, 1, "Buy", "Limit", some 15, 1, 5⟩

/-- State for the cancel-authorization bug: user 2's sell order 101 rests
at ask level 10. -/
def cxStateCancel : EngineState :=
  { orderbooks := [(1, ⟨1, [], [(10, [cxMaker1])], 0⟩)]
    balances := [(2, ⟨2, [(10, ⟨0, 50⟩)]⟩)]
    tickers := []
    markets := [(1, mkUnit)] }

/-- User 1 (not the owner) tries to cancel order 101. -/
def cxCancelReq : CancelOrderRequest := ⟨"r4", 1, 101, 1, 9⟩

/-- Balance at the top of the `i64` range. -/
def cxStateMaxBal : EngineState :=
  { orderbooks := []
    balances := [(1, ⟨1, [(20, ⟨i64max, 0⟩)]⟩)]
    tickers := []
    markets := [] }

def cxDeposit1 : BalanceRequest := ⟨"r5", 1, 20, 1, 9⟩

/-- Empty-balances state. -/
def cxStateEmpty : EngineState := ⟨[], [], [], []⟩

def cxDepositNeg : BalanceRequest := ⟨"r6", 1, 20, -10, 9⟩

def cxWithdrawNeg : BalanceRequest := ⟨"r7", 1, 20, -5, 10⟩

/-- User 1 with 5 available of token 20, no markets. -/
def wBalState : EngineState := ⟨[], [(1, ⟨1, [(20, ⟨5, 0⟩)]⟩)], [], []⟩

def wDepNeg : BalanceRequest := ⟨"w1", 1, 20, -3, 0⟩

def wWithNeg : BalanceRequest := ⟨"w2", 1, 20, -3, 0⟩

/-- User 1 with only 10 quote available on the unit market. -/
def c5State : EngineState := ⟨[], [(1, ⟨1, [(20, ⟨10, 0⟩)]⟩)], [], [(1, mkUnit)]⟩

/-- Limit Buy 5 @ 10 — requires 50 quote, more than the 10 available. -/
def c5Req : OrderRequest := ⟨"r8", 1, 1, "Buy", "Limit", some 10, 5, 0⟩

/-- User 1 with 100 quote available, empty book on the unit market. -/
def c7State : EngineState :=
  ⟨[(1, ⟨1, [], [], 0⟩)], [(1, ⟨1, [(20, ⟨100, 0⟩)]⟩)], [], [(1, mkUnit)]⟩

/-- Limit Buy 10 @ 5 on the empty book: matches nothing and rests. -/
def c7Req : OrderRequest := ⟨"r9", 1, 1, "Buy", "Limit", some 5, 10, 3⟩

/-- A Limit Buy taker of 60 @ 10 for the partial-fill part of C7. -/
def c7Taker : EOrder := ⟨700, 1, 1, .Buy, .Limit, some 10, 60, 0, .Pending, 3⟩

/-- Balances for the `C1_amended` witness: buyer (user 1) has 50 quote
locked; seller (user 2) has 5 base locked. -/
def c1wBals : Balances := [(1, ⟨1, [(20, ⟨0, 50⟩)]⟩), (2, ⟨2, [(10, ⟨3, 5⟩)]⟩)]

/-- A trade of 5 base at price 10 (decimals 0): cost 50. -/
def c1wTrade : Trade := ⟨1, 500, 101, 1, 2, 10, 5, 7⟩

/-- C8 witness scenario: user 1 holds 100 base available, market `mkUnit`
with an empty book. -/
def c8State : EngineState :=
  ⟨[(1, ⟨1, [], [], 0⟩)], [(1, ⟨1, [(10, ⟨100, 0⟩)]⟩)], [], [(1, mkUnit)]⟩

/-- Sell Limit 100 @ 10 (spec scenario S5). -/
def c8Req : OrderRequest := ⟨"c8", 1, 1, "Sell", "Limit", some 10, 100, 1⟩

/-- Cancellation of the freshly placed order `900` by its owner. -/
def c8Creq : CancelOrderRequest := ⟨"c8c", 1, 900, 1, 2⟩

/-! # Theorems -/

theorem wrap64_eq_of_inI64 {x : Int} (h : inI64 x) : wrap64 x = x := by
  obtain ⟨h1, h2⟩ := h
  simp only [i64min] at h1
  simp only [i64max] at h2
  unfold wrap64
  omega

/-- C1 counterexample: processing the Buy Market order for 60 base
against asks `[(10, 50), (11, 50)]` (base decimals 0) reserves only 600
quote (the truncated-average-price reservation) while the trades cost
610; settlement clamps the buyer's locked debit at 600 but credits the
sellers the full 610, so the sum over users of `available + locked` for
the quote token grows from 600 to 610 — token conservation fails. -/
theorem C1_counterexample :
    tokenSum cxState.balances 20 = 600 ∧
    (process_order cxState cxReq 500 7).1.success = true ∧
    tokenSum (process_order cxState cxReq 500 7).2.balances 20 = 610 := by
  decide

/-- C3 counterexample: the walk over the asks sums to 610 quote for
quantity 60, but the source locks `notional(est, quantity)` where `est`
is the truncated average price `610 * 1 / 60 = 10`, i.e. only 600; and
when the book cannot cover the quantity (100 against 50 available) the
admission does not reject `NoLiquidity` but locks a buffered estimate
(price `10 + 10/10 = 11`, reservation 1100). -/
theorem C3_counterexample :
    (spec_walk 0 60 0 cxBook.asks = some 610 ∧
      (validate_and_lock_order_balance cxState (create_order_from_request cxReq 500)).toOption =
        some (⟨20, 600⟩,
          [(1, ⟨1, [(20, ⟨0, 600⟩)]⟩),
           (2, ⟨2, [(10, ⟨0, 50⟩)]⟩),
           (3, ⟨3, [(10, ⟨0, 50⟩)]⟩)])) ∧
    (spec_walk 0 100 0 [((10 : Int), [cxMaker1])] = none ∧
      (validate_and_lock_order_balance cxStateThin
        (create_order_from_request cxReqBig 501)).isOk = true ∧
      (required_reservation cxStateThin (create_order_from_request cxReqBig 501) mkUnit).toOption =
        some ⟨20, 1100⟩) := by
  decide

/-- C4 counterexample: a Limit Buy at price 15 — not a multiple of the
market's `tick_size` 10 — for quantity 1 — below `min_order_size` 5 — is
not rejected: the engine replies success and the order rests in the book
at price 15 with its quote reservation locked. -/
theorem C4_counterexample :
    (process_order cxStateTicked cxReqOffTick 500 7).1.success = true ∧
    (process_order cxStateTicked cxReqOffTick 500 7).1.status = "PARTIALLY_FILLED" ∧
    (alookup 1 (process_order cxStateTicked cxReqOffTick 500 7).2.orderbooks).map
      (fun ob => ob.bids) =
      some [((15 : Int),
        [⟨500, 1, 1, .Buy, .Limit, some 15, 1, 0, .Pending, 5⟩])] ∧
    availOf (process_order cxStateTicked cxReqOffTick 500 7).2.balances 1 20 = 985 := by
  decide

/-- C6: evaluating the code at the failing input.  User 1 asks to cancel
user 2's resting order 101; the reply is REJECTED ("Order does not belong
to user") as the claim requires, but the engine state is changed: the
order has already been removed from the book and is gone (its owner's 50
locked base remains locked). -/
theorem C6_code_bug :
    (process_cancel_order cxStateCancel cxCancelReq).1.success = false ∧
    (process_cancel_order cxStateCancel cxCancelReq).1.status = "REJECTED" ∧
    bookHasOid cxStateCancel 1 101 = true ∧
    bookHasOid (process_cancel_order cxStateCancel cxCancelReq).2 1 101 = false ∧
    lockedOf (process_cancel_order cxStateCancel cxCancelReq).2.balances 2 10 = 50 := by
  decide

/-- C9 counterexample: a deposit of 1 to a user whose `available` is
`i64::MAX` replies success — no `Overflow` error exists in the ledger —
and the stored `available` wraps to `i64::MIN`. -/
theorem C9_counterexample :
    (process_deposit cxStateMaxBal cxDeposit1).1.success = true ∧
    availOf (process_deposit cxStateMaxBal cxDeposit1).2.balances 1 20 = i64min := by
  constructor
  · rfl
  · decide

/-- C10 counterexample: after a deposit of −10 creates the `(user 1,
token 20)` balance with `available = −10` (itself accepted with a success
reply), a Withdraw of −5 against that existing balance is rejected —
`available ≥ amount` fails at `−10 ≥ −5` — contradicting the claim that
every negative-amount withdrawal against an existing balance succeeds. -/
theorem C10_counterexample :
    (process_deposit cxStateEmpty cxDepositNeg).1.success = true ∧
    availOf (process_deposit cxStateEmpty cxDepositNeg).2.balances 1 20 = -10 ∧
    (process_withdrawal (process_deposit cxStateEmpty cxDepositNeg).2 cxWithdrawNeg).1.success
      = false ∧
    (process_withdrawal (process_deposit cxStateEmpty cxDepositNeg).2 cxWithdrawNeg).2 =
      (process_deposit cxStateEmpty cxDepositNeg).2 := by
  decide

/-! ## Ledger lemmas -/

theorem inI64_add_of_small64 {a d : Int} (ha : small64 a) (hd : small64 d) :
    inI64 (a + d) := by
  obtain ⟨h1, h2⟩ := ha
  obtain ⟨h3, h4⟩ := hd
  constructor <;> simp only [i64min, i64max] <;> omega

theorem alookup_nil {α β : Type} [DecidableEq α] (k : α) : alookup (β := β) k [] = none := rfl

theorem alookup_cons {α β : Type} [DecidableEq α] (k k' : α) (v : β) (l : List (α × β)) :
    alookup k ((k', v) :: l) = if k' = k then some v else alookup k l := rfl

theorem alookup_updTokenBalances (tb : TokenBalances) (tok tok' : Nat) (da dl : Int) :
    alookup tok' (updTokenBalances tok da dl tb) =
      if tok' = tok then some ⟨wrap64 (tbAvail tb tok + da), wrap64 (tbLocked tb tok + dl)⟩
      else alookup tok' tb := by
  induction tb with
  | nil =>
    by_cases h : tok' = tok
    · subst h; simp [updTokenBalances, alookup_cons, tbAvail, tbLocked, alookup_nil]
    · simp [updTokenBalances, alookup_cons, h, Ne.symm h, alookup_nil]
  | cons hd tl ih =>
    obtain ⟨k, b⟩ := hd
    by_cases hk : k = tok
    · subst hk
      by_cases h' : tok' = k
      · subst h'
        simp [updTokenBalances, alookup_cons, tbAvail, tbLocked]
      · simp [updTokenBalances, alookup_cons, h', Ne.symm h']
    · by_cases h' : tok' = k
      · subst h'
        simp [updTokenBalances, alookup_cons, hk]
      · simp only [updTokenBalances, if_neg hk, alookup_cons, if_neg (Ne.symm h'), ih]
        have htb : tbAvail ((k, b) :: tl) tok = tbAvail tl tok := by
          simp [tbAvail, alookup_cons, hk]
        have htl : tbLocked ((k, b) :: tl) tok = tbLocked tl tok := by
          simp [tbLocked, alookup_cons, hk]
        rw [htb, htl]

theorem alookup_update_user_balance (bals : Balances) (u tok u' : Nat) (da dl : Int) :
    alookup u' (update_user_balance bals u tok da dl) =
      if u' = u then
        some ⟨(match alookup u bals with
               | some ub => ub.userId
               | none => u),
              updTokenBalances tok da dl
                (match alookup u bals with
                 | some ub => ub.tokenBalances
                 | none => [])⟩
      else alookup u' bals := by
  induction bals with
  | nil =>
    by_cases h : u' = u
    · subst h; simp [update_user_balance, alookup_cons, alookup_nil]
    · simp [update_user_balance, alookup_cons, h, Ne.symm h, alookup_nil]
  | cons hd tl ih =>
    obtain ⟨k, ub⟩ := hd
    by_cases hk : k = u
    · subst hk
      by_cases h' : u' = k
      · subst h'
        simp [update_user_balance, alookup_cons]
      · simp [update_user_balance, alookup_cons, h', Ne.symm h']
    · by_cases h' : u' = k
      · subst h'
        simp [update_user_balance, alookup_cons, hk]
      · simp only [update_user_balance, if_neg hk, alookup_cons, if_neg (Ne.symm h'), ih]

theorem update_user_balance_cons (k : Nat) (ub : UserBalance) (tl : Balances)
    (u tok : Nat) (da dl : Int) :
    update_user_balance ((k, ub) :: tl) u tok da dl =
      if k = u then (k, ⟨ub.userId, updTokenBalances tok da dl ub.tokenBalances⟩) :: tl
      else (k, ub) :: update_user_balance tl u tok da dl := rfl

theorem availOf_def (bals : Balances) (u tok : Nat) :
    availOf bals u tok =
      match alookup u bals with
      | none => 0
      | some ub => tbAvail ub.tokenBalances tok := rfl

theorem lockedOf_def (bals : Balances) (u tok : Nat) :
    lockedOf bals u tok =
      match alookup u bals with
      | none => 0
      | some ub => tbLocked ub.tokenBalances tok := rfl

theorem tbAvail_updTokenBalances (tb : TokenBalances) (tok tok' : Nat) (da dl : Int) :
    tbAvail (updTokenBalances tok da dl tb) tok' =
      if tok' = tok then wrap64 (tbAvail tb tok + da) else tbAvail tb tok' := by
  rw [show tbAvail (updTokenBalances tok da dl tb) tok' =
      (match alookup tok' (updTokenBalances tok da dl tb) with
       | none => 0
       | some b => b.available) from rfl]
  rw [alookup_updTokenBalances]
  by_cases ht : tok' = tok
  · rw [if_pos ht, if_pos ht]
  · rw [if_neg ht, if_neg ht]
    rfl

theorem tbLocked_updTokenBalances (tb : TokenBalances) (tok tok' : Nat) (da dl : Int) :
    tbLocked (updTokenBalances tok da dl tb) tok' =
      if tok' = tok then wrap64 (tbLocked tb tok + dl) else tbLocked tb tok' := by
  rw [show tbLocked (updTokenBalances tok da dl tb) tok' =
      (match alookup tok' (updTokenBalances tok da dl tb) with
       | none => 0
       | some b => b.locked) from rfl]
  rw [alookup_updTokenBalances]
  by_cases ht : tok' = tok
  · rw [if_pos ht, if_pos ht]
  · rw [if_neg ht, if_neg ht]
    rfl

theorem availOf_update (bals : Balances) (u tok u' tok' : Nat) (da dl : Int) :
    availOf (update_user_balance bals u tok da dl) u' tok' =
      if u' = u ∧ tok' = tok then wrap64 (availOf bals u tok + da)
      else availOf bals u' tok' := by
  by_cases hu : u' = u
  · subst hu
    rw [availOf_def, alookup_update_user_balance, if_pos rfl]
    show tbAvail (updTokenBalances tok da dl _) tok' = _
    rw [tbAvail_updTokenBalances]
    by_cases ht : tok' = tok
    · rw [if_pos ht, if_pos ⟨rfl, ht⟩]
      rw [availOf_def]
      cases alookup u' bals with
      | none => rfl
      | some ub => rfl
    · rw [if_neg ht, if_neg (fun h : u' = u' ∧ tok' = tok => ht h.2)]
      rw [availOf_def]
      cases alookup u' bals with
      | none => rfl
      | some ub => rfl
  · rw [availOf_def, alookup_update_user_balance, if_neg hu,
      if_neg (fun h : u' = u ∧ tok' = tok => hu h.1), availOf_def]

theorem lockedOf_update (bals : Balances) (u tok u' tok' : Nat) (da dl : Int) :
    lockedOf (update_user_balance bals u tok da dl) u' tok' =
      if u' = u ∧ tok' = tok then wrap64 (lockedOf bals u tok + dl)
      else lockedOf bals u' tok' := by
  by_cases hu : u' = u
  · subst hu
    rw [lockedOf_def, alookup_update_user_balance, if_pos rfl]
    show tbLocked (updTokenBalances tok da dl _) tok' = _
    rw [tbLocked_updTokenBalances]
    by_cases ht : tok' = tok
    · rw [if_pos ht, if_pos ⟨rfl, ht⟩]
      rw [lockedOf_def]
      cases alookup u' bals with
      | none => rfl
      | some ub => rfl
    · rw [if_neg ht, if_neg (fun h : u' = u' ∧ tok' = tok => ht h.2)]
      rw [lockedOf_def]
      cases alookup u' bals with
      | none => rfl
      | some ub => rfl
  · rw [lockedOf_def, alookup_update_user_balance, if_neg hu,
      if_neg (fun h : u' = u ∧ tok' = tok => hu h.1), lockedOf_def]

theorem tokenContribution_updTokenBalances (tb : TokenBalances) (tok tok' : Nat)
    (da dl : Int) :
    tokenContribution (updTokenBalances tok da dl tb) tok' =
      tokenContribution tb tok' +
        (if tok = tok' then
          (wrap64 (tbAvail tb tok + da) - tbAvail tb tok)
            + (wrap64 (tbLocked tb tok + dl) - tbLocked tb tok)
        else 0) := by
  unfold tokenContribution
  rw [alookup_updTokenBalances]
  by_cases ht : tok' = tok
  · subst ht
    rw [if_pos rfl, if_pos rfl]
    cases h : alookup tok' tb with
    | none =>
      simp [tbAvail, tbLocked, h]
      try ring
    | some b =>
      simp [tbAvail, tbLocked, h]
      try ring
  · rw [if_neg ht, if_neg (Ne.symm ht)]
    ring

theorem tokenSum_cons (k : Nat) (ub : UserBalance) (tl : Balances) (tok : Nat) :
    tokenSum ((k, ub) :: tl) tok =
      tokenContribution ub.tokenBalances tok + tokenSum tl tok := by
  simp [tokenSum]

theorem tokenSum_update (bals : Balances) (u tok : Nat) (da dl : Int) (tok' : Nat) :
    tokenSum (update_user_balance bals u tok da dl) tok' =
      tokenSum bals tok' +
        (if tok = tok' then
          (wrap64 (availOf bals u tok + da) - availOf bals u tok)
            + (wrap64 (lockedOf bals u tok + dl) - lockedOf bals u tok)
        else 0) := by
  induction bals with
  | nil =>
    show tokenSum [(u, ⟨u, updTokenBalances tok da dl []⟩)] tok' = _
    rw [tokenSum_cons]
    show tokenContribution (updTokenBalances tok da dl []) tok' + tokenSum [] tok' = _
    rw [tokenContribution_updTokenBalances]
    have ha : availOf ([] : Balances) u tok = 0 := rfl
    have hl : lockedOf ([] : Balances) u tok = 0 := rfl
    have hc : tokenContribution [] tok' = 0 := rfl
    have ht : tbAvail [] tok = 0 := rfl
    have ht2 : tbLocked [] tok = 0 := rfl
    rw [ha, hl, hc, ht, ht2]
    show 0 + _ + 0 = 0 + _
    ring
  | cons hd tl ih =>
    obtain ⟨k, ub⟩ := hd
    by_cases hk : k = u
    · subst hk
      rw [update_user_balance_cons, if_pos rfl]
      rw [tokenSum_cons, tokenSum_cons]
      show tokenContribution (updTokenBalances tok da dl ub.tokenBalances) tok' + _ = _
      rw [tokenContribution_updTokenBalances]
      have h1 : availOf ((k, ub) :: tl) k tok = tbAvail ub.tokenBalances tok := by
        rw [availOf_def, alookup_cons, if_pos rfl]
      have h2 : lockedOf ((k, ub) :: tl) k tok = tbLocked ub.tokenBalances tok := by
        rw [lockedOf_def, alookup_cons, if_pos rfl]
      rw [h1, h2]
      ring
    · rw [update_user_balance_cons, if_neg hk]
      rw [tokenSum_cons, tokenSum_cons, ih]
      have h1 : availOf ((k, ub) :: tl) u tok = availOf tl u tok := by
        rw [availOf_def, alookup_cons, if_neg hk, ← availOf_def]
      have h2 : lockedOf ((k, ub) :: tl) u tok = lockedOf tl u tok := by
        rw [lockedOf_def, alookup_cons, if_neg hk, ← lockedOf_def]
      rw [h1, h2]
      ring

/-! ## C9 / C10 amended -/

/-- C9 amended: the balance ledger detects no overflow at all —
`update_user_balance` performs unchecked (wrapping) 64-bit addition and
has no error path, so a Deposit of any amount always replies success and
stores `available = wrap64(available + amount)` rather than returning an
`Overflow` error. -/
theorem C9_amended (st : EngineState) (req : BalanceRequest) :
    (process_deposit st req).1.success = true ∧
    availOf (process_deposit st req).2.balances req.userId req.tokenId =
      wrap64 (availOf st.balances req.userId req.tokenId + req.amount) := by
  constructor
  · rfl
  · show availOf (update_user_balance st.balances req.userId req.tokenId req.amount 0)
        req.userId req.tokenId = _
    rw [availOf_update, if_pos ⟨rfl, rfl⟩]

/-- C10 amended: the engine performs no sign validation on balance
requests.  A Deposit of any amount ≤ 0 replies success and adds the
amount to `available` (strictly decreasing it for a negative amount,
possibly below zero).  A Withdraw with amount < 0 against an existing
`(user, token)` balance replies success — and increases `available` by
`|amount|` — exactly when `available ≥ amount`, which holds for every
non-negative balance but can fail once `available` has itself been driven
below `amount` by negative deposits. -/
theorem C10_amended :
    (∀ (st : EngineState) (req : BalanceRequest),
        req.amount ≤ 0 →
        inI64 (availOf st.balances req.userId req.tokenId + req.amount) →
        (process_deposit st req).1.success = true ∧
          availOf (process_deposit st req).2.balances req.userId req.tokenId =
            availOf st.balances req.userId req.tokenId + req.amount) ∧
    (∀ (st : EngineState) (req : BalanceRequest),
        req.amount < 0 →
        hasEntry st.balances req.userId req.tokenId = true →
        availOf st.balances req.userId req.tokenId ≥ req.amount →
        inI64 (availOf st.balances req.userId req.tokenId - req.amount) →
        (process_withdrawal st req).1.success = true ∧
          availOf (process_withdrawal st req).2.balances req.userId req.tokenId =
            availOf st.balances req.userId req.tokenId - req.amount) := by
  constructor
  · intro st req _ hin
    refine ⟨rfl, ?_⟩
    show availOf (update_user_balance st.balances req.userId req.tokenId req.amount 0)
        req.userId req.tokenId = _
    rw [availOf_update, if_pos ⟨rfl, rfl⟩, wrap64_eq_of_inI64 hin]
  · intro st req _ hent hge hin
    unfold hasEntry at hent
    cases hu : alookup req.userId st.balances with
    | none => rw [hu] at hent; simp at hent
    | some ub =>
      simp only [hu] at hent
      cases ht : alookup req.tokenId ub.tokenBalances with
      | none => rw [ht] at hent; simp at hent
      | some tb =>
        have havail : availOf st.balances req.userId req.tokenId = tb.available := by
          simp only [availOf_def, hu, tbAvail, ht]
        simp only [process_withdrawal, hu, ht]
        rw [if_pos (havail ▸ hge)]
        refine ⟨rfl, ?_⟩
        show availOf (update_user_balance st.balances req.userId req.tokenId (-req.amount) 0)
            req.userId req.tokenId = _
        rw [availOf_update, if_pos ⟨rfl, rfl⟩, ← sub_eq_add_neg, wrap64_eq_of_inI64 hin]

/-- Witness for C10 amended at a concrete ledger: user 1 holds 5 of
token 20; a Deposit of −3 succeeds and lands at 2; a Withdraw of −3
succeeds and lands at 8. -/
theorem C10_amended_witness :
    ((process_deposit wBalState wDepNeg).1.success = true ∧
      availOf (process_deposit wBalState wDepNeg).2.balances wDepNeg.userId wDepNeg.tokenId =
        availOf wBalState.balances wDepNeg.userId wDepNeg.tokenId + wDepNeg.amount) ∧
    ((process_withdrawal wBalState wWithNeg).1.success = true ∧
      availOf (process_withdrawal wBalState wWithNeg).2.balances wWithNeg.userId wWithNeg.tokenId =
        availOf wBalState.balances wWithNeg.userId wWithNeg.tokenId - wWithNeg.amount) :=
  ⟨C10_amended.1 wBalState wDepNeg (by decide) (by decide),
   C10_amended.2 wBalState wWithNeg (by decide) (by decide) (by decide) (by decide)⟩

/-! ## C5 -/

/-- C5: reservation-failure atomicity.  When the market resolves and the
computed reservation exceeds the user's available balance in the required
token, `process_order` replies REJECTED and returns the engine state
exactly as it was: no balance, book or ticker changes. -/
theorem C5_reservation_failure_atomic (st : EngineState) (req : OrderRequest)
    (oid : Nat) (now : Int) (mkt : MarketInfo) (ub : UserBalance) (r : Reservation)
    (hm : alookup (create_order_from_request req oid).marketId st.markets = some mkt)
    (hu : alookup (create_order_from_request req oid).userId st.balances = some ub)
    (hr : required_reservation st (create_order_from_request req oid) mkt = .ok r)
    (hins : tbAvail ub.tokenBalances r.tokenId < r.amount) :
    process_order st req oid now = (rejectedOrderResponse req "Insufficient balance", st) := by
  have hv : validate_and_lock_order_balance st (create_order_from_request req oid) =
      .error "Insufficient balance" := by
    simp only [validate_and_lock_order_balance, hm, hu, hr]
    rw [if_pos hins]
  simp only [process_order, hm, hv]

/-- Witness for C5: user 1 holds only 10 quote; a Limit Buy 5 @ 10 needs
50 quote and is atomically rejected. -/
theorem C5_witness :
    process_order c5State c5Req 600 11 =
      (rejectedOrderResponse c5Req "Insufficient balance", c5State) :=
  C5_reservation_failure_atomic c5State c5Req 600 11 mkUnit
    ⟨1, [(20, ⟨10, 0⟩)]⟩ ⟨20, 50⟩ (by decide) (by decide) rfl (by decide)

/-! ## C4 amended -/

theorem ite_filled_ne_rejected (c : Prop) [Decidable c] :
    (if c then "FILLED" else "PARTIALLY_FILLED") ≠ "REJECTED" := by
  split
  · decide
  · decide

/-- C4 amended: the engine performs no tick-size or min-order-size
validation at all.  Whenever the market resolves and the funds lock
succeeds, the request is accepted (success reply, never REJECTED) — even
when the Limit price is not a multiple of `tick_size` and the quantity is
below `min_order_size` — and is processed normally. -/
theorem C4_amended (st : EngineState) (req : OrderRequest) (oid : Nat) (now : Int)
    (mkt : MarketInfo) (res : Reservation × Balances) (p : Int)
    (hm : alookup (create_order_from_request req oid).marketId st.markets = some mkt)
    (hv : validate_and_lock_order_balance st (create_order_from_request req oid) = .ok res)
    (_hp : (create_order_from_request req oid).price = some p)
    (_htick : p % mkt.tickSize ≠ 0)
    (_hqty : (create_order_from_request req oid).quantity < mkt.minOrderSize) :
    (process_order st req oid now).1.success = true ∧
    (process_order st req oid now).1.status ≠ "REJECTED" := by
  simp only [process_order, hm, hv]
  exact ⟨trivial, ite_filled_ne_rejected _⟩

/-- Witness for C4 amended: the concrete off-tick, below-minimum Limit Buy
of `C4_counterexample` is accepted. -/
theorem C4_amended_witness :
    (process_order cxStateTicked cxReqOffTick 500 7).1.success = true ∧
    (process_order cxStateTicked cxReqOffTick 500 7).1.status ≠ "REJECTED" :=
  C4_amended cxStateTicked cxReqOffTick 500 7 mkTicked
    (⟨20, 15⟩, [(1, ⟨1, [(20, ⟨985, 15⟩)]⟩)]) 15
    (by decide) rfl rfl (by decide) (by decide)

/-! ## C3 amended -/

theorem smd_ok_nonneg {p q : Int} {d : Nat} {c : Int}
    (h : safe_multiply_divide p q d = .ok c) : 0 ≤ c := by
  simp only [safe_multiply_divide] at h
  split at h
  · exact absurd h (by simp)
  · split at h
    · exact absurd h (by simp)
    · split at h
      · exact absurd h (by simp)
      · cases h
        exact Int.natCast_nonneg _

/-- The source's cost walk only ever adds non-negative per-level costs. -/
theorem walkAsks_total_mono {d : Nat} {asks : List Level} {rem0 total rem C : Int} :
    walkAsks d rem0 total asks = some (rem, C) → total ≤ C := by
  induction asks generalizing rem0 total with
  | nil =>
    intro h
    unfold walkAsks at h
    cases h
    exact le_refl _
  | cons hd rest ih =>
    obtain ⟨p, q⟩ := hd
    intro h
    simp only [walkAsks] at h
    split at h
    · cases h; exact le_refl _
    · split at h
      · exact absurd h (by simp)
      · next c hc =>
        have := ih h
        have hc0 : 0 ≤ c := smd_ok_nonneg hc
        omega

/-- When the walk covers the quantity, the source walk and the
spec-prescribed walk agree on the total cost. -/
theorem walkAsks_eq_spec_walk {d : Nat} {asks : List Level} {rem0 total rem C : Int}
    (h : walkAsks d rem0 total asks = some (rem, C)) (hrem : rem ≤ 0) :
    spec_walk d rem0 total asks = some C := by
  induction asks generalizing rem0 total with
  | nil =>
    unfold walkAsks at h
    cases h
    unfold spec_walk
    rw [if_pos hrem]
  | cons hd rest ih =>
    obtain ⟨p, q⟩ := hd
    simp only [walkAsks] at h
    simp only [spec_walk]
    split at h
    · next hle =>
      cases h
      rw [if_pos hle]
    · next hgt =>
      rw [if_neg hgt]
      split at h
      · exact absurd h (by simp)
      · exact ih h

/-- C3 amended: the Buy-Market reservation is not the walk sum itself:
the source converts the walk sum `C` into a truncated average price
`est = ⌊C·10^d / quantity⌋` and locks `notional(est, quantity)`, which
never exceeds — but can fall short of — the spec's walk sum; and when
liquidity is insufficient the order is not rejected unless the ask side
is empty (the source locks a `highest_ask + 10%` buffered estimate
instead, see `C3_counterexample`). -/
theorem C3_amended (st : EngineState) (mid : Nat) (qty : Int) (ob : OrderBook)
    (mkt : MarketInfo) (est : Int) (amt rem C : Int)
    (hob : alookup mid st.orderbooks = some ob)
    (hm : alookup mid st.markets = some mkt)
    (hw : walkAsks mkt.baseCurrency.decimals qty 0 ob.asks = some (rem, C))
    (hrem : rem ≤ 0)
    (hqty : 0 < qty)
    (hest : estimate_market_buy_price st mid qty = some est)
    (hamt : safe_multiply_divide est qty mkt.baseCurrency.decimals = .ok amt) :
    amt ≤ C ∧ spec_walk mkt.baseCurrency.decimals qty 0 ob.asks = some C := by
  have hspec := walkAsks_eq_spec_walk hw hrem
  have hC0 : (0 : Int) ≤ C := walkAsks_total_mono hw
  refine ⟨?_, hspec⟩
  simp only [estimate_market_buy_price, hob, hm, hw] at hest
  rw [if_neg (by omega)] at hest
  by_cases hd : mkt.baseCurrency.decimals > 18
  · rw [if_pos hd] at hest
    exact absurd hest (by simp)
  · rw [if_neg hd] at hest
    set M := 10 ^ mkt.baseCurrency.decimals with hM
    set r : Nat := C.toNat * M / qty.toNat with hr
    by_cases hbig : (r : Int) > i64max
    · rw [if_pos hbig] at hest
      exact absurd hest (by simp)
    · rw [if_neg hbig] at hest
      have hestv : est = (r : Int) := by
        cases hest
        rfl
      have hnn : ¬ (est < 0 ∨ qty < 0) := by
        push_neg
        constructor
        · rw [hestv]
          exact Int.natCast_nonneg _
        · omega
      simp only [safe_multiply_divide] at hamt
      rw [if_neg hnn] at hamt
      rw [if_neg hd] at hamt
      split at hamt
      · exact absurd hamt (by simp)
      · cases hamt
        have htoNat : est.toNat = r := by
          rw [hestv]
          exact Int.toNat_natCast r
        rw [htoNat]
        have hMpos : 0 < M := by positivity
        have hstep1 : r * qty.toNat ≤ C.toNat * M := by
          rw [hr]
          exact Nat.div_mul_le_self (C.toNat * M) qty.toNat
        have hstep2 : r * qty.toNat / M ≤ C.toNat := by
          calc r * qty.toNat / M ≤ C.toNat * M / M := Nat.div_le_div_right hstep1
          _ = C.toNat := Nat.mul_div_cancel C.toNat hMpos
        calc ((r * qty.toNat / M : Nat) : Int) ≤ (C.toNat : Int) := by exact_mod_cast hstep2
        _ = C := Int.toNat_of_nonneg hC0

/-- Witness for C3 amended at the concrete book of `C3_counterexample`:
the locked amount 600 is bounded by the spec walk sum 610. -/
theorem C3_amended_witness :
    (600 : Int) ≤ 610 ∧ spec_walk 0 60 0 cxBook.asks = some 610 :=
  C3_amended cxState 1 60 cxBook mkUnit 10 600 0 610
    (by decide) (by decide) (by decide) (by decide) (by decide) (by decide) rfl

/-! ## C1 amended -/

theorem small64_to_inI64 {x : Int} (h : small64 x) : inI64 x := by
  obtain ⟨h1, h2⟩ := h
  constructor <;> simp only [i64min, i64max] <;> omega

/-- A ledger update whose resulting values stay in the `i64` range moves
the per-token sum by exactly the two deltas. -/
theorem tokenSum_update_exact (bals : Balances) (u tok : Nat) (da dl : Int) (tok' : Nat)
    (h1 : inI64 (availOf bals u tok + da)) (h2 : inI64 (lockedOf bals u tok + dl)) :
    tokenSum (update_user_balance bals u tok da dl) tok' =
      tokenSum bals tok' + (if tok = tok' then da + dl else 0) := by
  rw [tokenSum_update, wrap64_eq_of_inI64 h1, wrap64_eq_of_inI64 h2]
  split_ifs
  · ring
  · ring

/-- C1 amended: one trade settlement conserves every token's total of
`available + locked` provided the buyer's locked quote covers the trade
cost and the seller's locked base covers the trade quantity (and all the
touched cells are comfortably inside the `i64` range).
`C1_counterexample` shows that without the cover condition — which the
under-reserved Buy Market violates — the clamped `min(locked, cost)`
debit against an unclamped credit breaks conservation. -/
theorem C1_amended (bals : Balances) (mkt : MarketInfo) (t : Trade) (c : Int)
    (hbq : mkt.baseCurrency.id ≠ mkt.quoteCurrency.id)
    (hcost : safe_multiply_divide t.price t.quantity mkt.baseCurrency.decimals = .ok c)
    (hbl : c ≤ lockedOf bals t.buyerUserId mkt.quoteCurrency.id)
    (hsl : t.quantity ≤ lockedOf bals t.sellerUserId mkt.baseCurrency.id)
    (hq0 : 0 ≤ t.quantity) (hq61 : t.quantity ≤ 2 ^ 61) (hc61 : c ≤ 2 ^ 61)
    (hB : small64 (availOf bals t.buyerUserId mkt.quoteCurrency.id) ∧
          small64 (lockedOf bals t.buyerUserId mkt.quoteCurrency.id) ∧
          small64 (availOf bals t.buyerUserId mkt.baseCurrency.id) ∧
          small64 (lockedOf bals t.buyerUserId mkt.baseCurrency.id) ∧
          small64 (availOf bals t.sellerUserId mkt.baseCurrency.id) ∧
          small64 (lockedOf bals t.sellerUserId mkt.baseCurrency.id) ∧
          small64 (availOf bals t.sellerUserId mkt.quoteCurrency.id) ∧
          small64 (lockedOf bals t.sellerUserId mkt.quoteCurrency.id)) :
    ∀ tok, tokenSum (settleTrade bals mkt t) tok = tokenSum bals tok := by
  intro tok
  obtain ⟨hBqa, hBql, hBba, hBbl, hSba, hSbl, hSqa, hSql⟩ := hB
  have hc0 : 0 ≤ c := smd_ok_nonneg hcost
  simp only [settleTrade]
  rw [show exceptD (safe_multiply_divide t.price t.quantity mkt.baseCurrency.decimals) = c
      from by rw [hcost]; rfl]
  rw [min_eq_right hbl]
  set b1 := update_user_balance bals t.buyerUserId mkt.quoteCurrency.id 0 (-c) with hb1
  set b2 := update_user_balance b1 t.buyerUserId mkt.baseCurrency.id t.quantity 0 with hb2
  have e2a : availOf b1 t.buyerUserId mkt.baseCurrency.id =
      availOf bals t.buyerUserId mkt.baseCurrency.id := by
    rw [hb1, availOf_update,
      if_neg (fun h : _ ∧ mkt.baseCurrency.id = mkt.quoteCurrency.id => hbq h.2)]
  have e2l : lockedOf b1 t.buyerUserId mkt.baseCurrency.id =
      lockedOf bals t.buyerUserId mkt.baseCurrency.id := by
    rw [hb1, lockedOf_update,
      if_neg (fun h : _ ∧ mkt.baseCurrency.id = mkt.quoteCurrency.id => hbq h.2)]
  have e1sl : lockedOf b1 t.sellerUserId mkt.baseCurrency.id =
      lockedOf bals t.sellerUserId mkt.baseCurrency.id := by
    rw [hb1, lockedOf_update,
      if_neg (fun h : _ ∧ mkt.baseCurrency.id = mkt.quoteCurrency.id => hbq h.2)]
  have e1sa : availOf b1 t.sellerUserId mkt.baseCurrency.id =
      availOf bals t.sellerUserId mkt.baseCurrency.id := by
    rw [hb1, availOf_update,
      if_neg (fun h : _ ∧ mkt.baseCurrency.id = mkt.quoteCurrency.id => hbq h.2)]
  have e3l : lockedOf b2 t.sellerUserId mkt.baseCurrency.id =
      lockedOf bals t.sellerUserId mkt.baseCurrency.id := by
    rw [hb2, lockedOf_update]
    by_cases hsb : t.sellerUserId = t.buyerUserId
    · rw [if_pos ⟨hsb, rfl⟩, add_zero, hsb,
        wrap64_eq_of_inI64 (e2l ▸ small64_to_inI64 hBbl), e2l, ← hsb]
    · rw [if_neg (fun h : t.sellerUserId = t.buyerUserId ∧ _ => hsb h.1), e1sl]
  rw [e3l, min_eq_right hsl]
  set b3 := update_user_balance b2 t.sellerUserId mkt.baseCurrency.id 0 (-t.quantity) with hb3
  have e3a : inI64 (availOf b2 t.sellerUserId mkt.baseCurrency.id + 0) := by
    rw [hb2, availOf_update]
    by_cases hsb : t.sellerUserId = t.buyerUserId
    · rw [if_pos ⟨hsb, rfl⟩, e2a]
      have h1 := hBba
      unfold small64 at h1
      have hin : inI64 (availOf bals t.buyerUserId mkt.baseCurrency.id + t.quantity) := by
        unfold inI64 i64min i64max
        omega
      rw [wrap64_eq_of_inI64 hin]
      unfold inI64 i64min i64max
      omega
    · rw [if_neg (fun h : t.sellerUserId = t.buyerUserId ∧ _ => hsb h.1), e1sa, add_zero]
      exact small64_to_inI64 hSba
  have e4aeq : availOf b3 t.sellerUserId mkt.quoteCurrency.id =
      availOf bals t.sellerUserId mkt.quoteCurrency.id := by
    rw [hb3, availOf_update,
      if_neg (fun h : _ ∧ mkt.quoteCurrency.id = mkt.baseCurrency.id => hbq h.2.symm)]
    rw [hb2, availOf_update,
      if_neg (fun h : _ ∧ mkt.quoteCurrency.id = mkt.baseCurrency.id => hbq h.2.symm)]
    rw [hb1, availOf_update]
    by_cases hsb : t.sellerUserId = t.buyerUserId
    · rw [if_pos ⟨hsb, rfl⟩, add_zero, hsb,
        wrap64_eq_of_inI64 (small64_to_inI64 hBqa)]
    · rw [if_neg (fun h : t.sellerUserId = t.buyerUserId ∧ _ => hsb h.1)]
  have e4l : inI64 (lockedOf b3 t.sellerUserId mkt.quoteCurrency.id + 0) := by
    rw [add_zero, hb3, lockedOf_update,
      if_neg (fun h : _ ∧ mkt.quoteCurrency.id = mkt.baseCurrency.id => hbq h.2.symm)]
    rw [hb2, lockedOf_update,
      if_neg (fun h : _ ∧ mkt.quoteCurrency.id = mkt.baseCurrency.id => hbq h.2.symm)]
    rw [hb1, lockedOf_update]
    by_cases hsb : t.sellerUserId = t.buyerUserId
    · rw [if_pos ⟨hsb, rfl⟩]
      have h1 := hBql
      unfold small64 at h1
      have hin : inI64 (lockedOf bals t.buyerUserId mkt.quoteCurrency.id + -c) := by
        unfold inI64 i64min i64max
        omega
      rw [wrap64_eq_of_inI64 hin]
      unfold inI64 i64min i64max
      omega
    · rw [if_neg (fun h : t.sellerUserId = t.buyerUserId ∧ _ => hsb h.1)]
      exact small64_to_inI64 hSql
  rw [tokenSum_update_exact b3 t.sellerUserId mkt.quoteCurrency.id c 0 tok
      (by rw [e4aeq]
          have h1 := hSqa
          unfold small64 at h1
          unfold inI64 i64min i64max
          omega)
      e4l]
  rw [tokenSum_update_exact b2 t.sellerUserId mkt.baseCurrency.id 0 (-t.quantity) tok
      e3a
      (by rw [e3l]
          have h1 := hSbl
          unfold small64 at h1
          unfold inI64 i64min i64max
          omega)]
  rw [tokenSum_update_exact b1 t.buyerUserId mkt.baseCurrency.id t.quantity 0 tok
      (by rw [e2a]
          have h1 := hBba
          unfold small64 at h1
          unfold inI64 i64min i64max
          omega)
      (by rw [e2l, add_zero]
          exact small64_to_inI64 hBbl)]
  rw [tokenSum_update_exact bals t.buyerUserId mkt.quoteCurrency.id 0 (-c) tok
      (by rw [add_zero]
          exact small64_to_inI64 hBqa)
      (by have h1 := hBql
          unfold small64 at h1
          unfold inI64 i64min i64max
          omega)]
  split_ifs <;> ring

/-! ## Matching plumbing lemmas -/

theorem alookup_eq_none {β : Type} (k : Nat) (l : List (Nat × β))
    (h : ∀ e ∈ l, e.1 ≠ k) : alookup k l = none := by
  induction l with
  | nil => rfl
  | cons hd tl ih =>
    rw [show alookup k (hd :: tl) = if hd.1 = k then some hd.2 else alookup k tl from rfl]
    rw [if_neg (h hd (List.mem_cons_self hd tl))]
    exact ih (fun e he => h e (List.mem_cons_of_mem hd he))

theorem alookupI_eq_none (k : Int) (l : List Level)
    (h : ∀ e ∈ l, e.1 ≠ k) : alookup k l = none := by
  induction l with
  | nil => rfl
  | cons hd tl ih =>
    rw [show alookup k (hd :: tl) = if hd.1 = k then some hd.2 else alookup k tl from rfl]
    rw [if_neg (h hd (List.mem_cons_self hd tl))]
    exact ih (fun e he => h e (List.mem_cons_of_mem hd he))

/-- Appending through `insertTail` at a key of a strictly key-sorted side:
the level at the key is the old queue with the order at its tail. -/
theorem alookup_insertTail (side : List Level) (price : Int) (o : EOrder)
    (hs : List.Pairwise (· < ·) (side.map Prod.fst)) :
    alookup price (insertTail side price o) =
      some (((alookup price side).getD []) ++ [o]) := by
  induction side with
  | nil => simp [insertTail, alookup]
  | cons hd tl ih =>
    obtain ⟨p, q⟩ := hd
    simp only [List.map_cons, List.pairwise_cons] at hs
    by_cases hp : p = price
    · subst hp
      simp [insertTail, alookup]
    · simp only [insertTail, if_neg hp]
      by_cases hlt : price < p
      · rw [if_pos hlt]
        have hnone : alookup price ((p, q) :: tl) = none := by
          apply alookupI_eq_none
        -- keys of the tail are all greater than p > price
          intro e he
          rcases List.mem_cons.1 he with he | he
          · rw [he]
            exact hp
          · have := hs.1 e.1 (List.mem_map_of_mem Prod.fst he)
            omega
        rw [hnone]
        simp [alookup]
      · rw [if_neg hlt, alookup_cons, if_neg hp, ih hs.2, alookup_cons, if_neg hp]

/-- `mergeSide` with no eligible level is the identity. -/
theorem mergeSide_id (orig : List Level) (pred : Int → Bool) (upd : List Level)
    (h : ∀ l ∈ orig, pred l.1 = false) : mergeSide orig pred upd = orig := by
  induction orig with
  | nil => rfl
  | cons hd tl ih =>
    obtain ⟨p, q⟩ := hd
    simp only [mergeSide]
    rw [if_neg (by rw [h (p, q) (List.mem_cons_self _ tl)]; simp)]
    rw [ih (fun l hl => h l (List.mem_cons_of_mem _ hl))]

theorem alookup_setOrderbook_self (obs : List (Nat × OrderBook)) (mid : Nat)
    (ob : OrderBook) (h : (alookup mid obs).isSome) :
    alookup mid (setOrderbook obs mid ob) = some ob := by
  induction obs with
  | nil => simp [alookup] at h
  | cons hd tl ih =>
    obtain ⟨k, b⟩ := hd
    by_cases hk : k = mid
    · subst hk
      show alookup k ((if k = k then (k, ob) else (k, b)) ::
        (tl.map fun e => if e.1 = k then (k, ob) else e)) = some ob
      rw [if_pos rfl, alookup_cons, if_pos rfl]
    · rw [alookup_cons, if_neg hk] at h
      show alookup mid ((if k = mid then (mid, ob) else (k, b)) ::
        (tl.map fun e => if e.1 = mid then (mid, ob) else e)) = some ob
      rw [if_neg hk, alookup_cons, if_neg hk]
      exact ih h

/-- The taker's remaining quantity falls, and its filled quantity rises,
by exactly the sum of the emitted trade quantities (queue loop). -/
theorem matchQueue_rem_fq (tk : EOrder) (now price : Int) (rem fq : Int)
    (queue : List EOrder) :
    (matchQueue tk now price rem fq queue).rem =
      rem - (((matchQueue tk now price rem fq queue).trades.map (·.quantity)).sum) ∧
    (matchQueue tk now price rem fq queue).fq =
      fq + (((matchQueue tk now price rem fq queue).trades.map (·.quantity)).sum) := by
  induction queue generalizing rem fq with
  | nil => simp [matchQueue]
  | cons m rest ih =>
    simp only [matchQueue]
    split
    · simp
    · split
      · have h := ih (rem - min rem (m.quantity - m.filledQuantity))
          (fq + min rem (m.quantity - m.filledQuantity))
        simp only [List.map_cons, List.sum_cons, mkTrade]
        constructor
        · rw [h.1]; ring
        · rw [h.2]; ring
      · refine ⟨?_, ?_⟩ <;> simp [mkTrade]

/-- The same fill-sum invariant for the level loop. -/
theorem matchLevels_rem_fq (tk : EOrder) (now : Int) (rem fq : Int)
    (levels : List Level) :
    (matchLevels tk now rem fq levels).rem =
      rem - (((matchLevels tk now rem fq levels).trades.map (·.quantity)).sum) ∧
    (matchLevels tk now rem fq levels).fq =
      fq + (((matchLevels tk now rem fq levels).trades.map (·.quantity)).sum) := by
  induction levels generalizing rem fq with
  | nil => simp [matchLevels]
  | cons hd rest ih =>
    obtain ⟨p, queue⟩ := hd
    simp only [matchLevels]
    split
    · simp
    · have hq := matchQueue_rem_fq tk now p rem fq queue
      have hl := ih (matchQueue tk now p rem fq queue).rem
        (matchQueue tk now p rem fq queue).fq
      simp only [List.map_append, List.sum_append]
      constructor
      · rw [hl.1, hq.1]; ring
      · rw [hl.2, hq.2]; ring

/-- A crossing-free Limit order rests in full, with status `Pending`, at
the tail of its own side's queue at the limit price; the opposite side is
untouched and no trades are emitted. -/
theorem execute_limit_no_cross (tk : EOrder) (now : Int) (ob : OrderBook) (lim : Int)
    (hp : tk.price = some lim) (hq : 0 < tk.quantity) (hf0 : tk.filledQuantity = 0)
    (helig : match tk.orderType with
             | .Buy => ∀ l ∈ ob.asks, ¬ (l.1 ≤ lim)
             | .Sell => ∀ l ∈ ob.bids, ¬ (lim ≤ l.1)) :
    execute_limit_order tk now ob =
      ⟨{ tk with filledQuantity := 0, status := .Pending }, [], [],
       (match tk.orderType with
        | OrderType.Buy =>
            { ob with bids :=
                insertTail ob.bids lim { tk with filledQuantity := 0, status := .Pending } }
        | OrderType.Sell =>
            { ob with asks :=
                insertTail ob.asks lim { tk with filledQuantity := 0, status := .Pending } })⟩ := by
  cases hside : tk.orderType with
  | Buy =>
    have hfil : ob.asks.filter (fun l => decide (l.1 ≤ lim)) = [] := by
      rw [List.filter_eq_nil_iff]
      intro l hl
      simp only [decide_eq_true_eq]
      rw [hside] at helig
      exact helig l hl
    simp only [execute_limit_order, hp, hside, hfil, matchLevels, hf0]
    rw [mergeSide_id _ _ _ (by
      intro l hl
      rw [hside] at helig
      simp [helig l hl])]
    rw [if_pos hq, if_neg (by omega), if_neg (by omega)]
  | Sell =>
    have hfil : ob.bids.filter (fun l => decide (lim ≤ l.1)) = [] := by
      rw [List.filter_eq_nil_iff]
      intro l hl
      simp only [decide_eq_true_eq]
      rw [hside] at helig
      exact helig l hl
    simp only [execute_limit_order, hp, hside, hfil, List.reverse_nil, matchLevels, hf0]
    rw [mergeSide_id _ _ _ (by
      intro l hl
      rw [hside] at helig
      simp [helig l hl])]
    rw [if_pos hq, if_neg (by omega), if_neg (by omega)]

/-- Witness for C1 amended: with full cover, settlement leaves both
token sums unchanged. -/
theorem C1_amended_witness :
    tokenSum (settleTrade c1wBals mkUnit c1wTrade) 20 = tokenSum c1wBals 20 ∧
    tokenSum (settleTrade c1wBals mkUnit c1wTrade) 10 = tokenSum c1wBals 10 :=
  ⟨C1_amended c1wBals mkUnit c1wTrade 50 (by decide) rfl (by decide) (by decide)
      (by decide) (by decide) (by decide)
      ⟨by decide, by decide, by decide, by decide, by decide, by decide, by decide, by decide⟩ 20,
   C1_amended c1wBals mkUnit c1wTrade 50 (by decide) rfl (by decide) (by decide)
      (by decide) (by decide) (by decide)
      ⟨by decide, by decide, by decide, by decide, by decide, by decide, by decide, by decide⟩ 10⟩

/-! ## C7 -/

/-- C7 counterexample: a Limit Buy on an empty book fills nothing and
rests, the stored order status is `Pending`, but the reply status is
"PARTIALLY_FILLED" — the engine's success reply never carries "PENDING"
(it is FILLED when `filled == quantity`, else PARTIALLY_FILLED). -/
theorem C7_counterexample :
    (process_order c7State c7Req 600 7).1.filledQuantity = some 0 ∧
    (process_order c7State c7Req 600 7).1.status = "PARTIALLY_FILLED" ∧
    ¬ (process_order c7State c7Req 600 7).1.status = "PENDING" := by
  decide

/-- C7 amended: a Limit order that matches nothing rests in full (its
whole quantity, `filled = 0`, status `Pending`) at the tail of its
own-side queue at the order's price, but the reply status is
"PARTIALLY_FILLED", not "PENDING" (first part, through `process_order`);
a partially matched Limit order rests the remainder (as a fresh `Pending`
order for `quantity − filled`) and the returned taker's status is
`PartiallyFilled` (second part, on `execute_limit_order`). -/
theorem C7_amended :
    (∀ (st : EngineState) (req : OrderRequest) (oid : Nat) (now lim : Int)
        (mkt : MarketInfo) (resv : Reservation) (bals1 : Balances) (ob : OrderBook),
      req.orderKind ≠ "Market" →
      req.price = some lim →
      0 < req.quantity →
      alookup (create_order_from_request req oid).marketId st.markets = some mkt →
      validate_and_lock_order_balance st (create_order_from_request req oid) =
        .ok (resv, bals1) →
      alookup (create_order_from_request req oid).marketId st.orderbooks = some ob →
      List.Pairwise (· < ·)
        ((match (create_order_from_request req oid).orderType with
          | OrderType.Buy => ob.bids
          | OrderType.Sell => ob.asks).map Prod.fst) →
      (match (create_order_from_request req oid).orderType with
       | OrderType.Buy => ∀ l ∈ ob.asks, ¬ (l.1 ≤ lim)
       | OrderType.Sell => ∀ l ∈ ob.bids, ¬ (lim ≤ l.1)) →
      (process_order st req oid now).1.status = "PARTIALLY_FILLED" ∧
      (process_order st req oid now).1.filledQuantity = some 0 ∧
      ∃ ob', alookup (create_order_from_request req oid).marketId
          (process_order st req oid now).2.orderbooks = some ob' ∧
        alookup lim (match (create_order_from_request req oid).orderType with
                     | OrderType.Buy => ob'.bids
                     | OrderType.Sell => ob'.asks) =
          some ((alookup lim (match (create_order_from_request req oid).orderType with
                              | OrderType.Buy => ob.bids
                              | OrderType.Sell => ob.asks)).getD [] ++
                [{ create_order_from_request req oid with
                    filledQuantity := 0, status := .Pending }])) ∧
    (∀ (tk : EOrder) (now : Int) (ob : OrderBook) (lim S : Int),
      tk.price = some lim →
      tk.filledQuantity = 0 →
      S = (((execute_limit_order tk now ob).trades).map (·.quantity)).sum →
      0 < S →
      S < tk.quantity →
      List.Pairwise (· < ·) ((match tk.orderType with
          | OrderType.Buy => ob.bids
          | OrderType.Sell => ob.asks).map Prod.fst) →
      (execute_limit_order tk now ob).taker.status = .PartiallyFilled ∧
      (execute_limit_order tk now ob).taker.filledQuantity = S ∧
      ∃ q, alookup lim (match tk.orderType with
            | OrderType.Buy => (execute_limit_order tk now ob).book.bids
            | OrderType.Sell => (execute_limit_order tk now ob).book.asks) = some q ∧
        q.getLast? =
          some ({ tk with
                    quantity := tk.quantity - S
                    filledQuantity := 0
                    status := .Pending })) := by
  constructor
  · intro st req oid now lim mkt resv bals1 ob hmk hprice hq hm hv hob hsort helig
    have hk : (create_order_from_request req oid).orderKind = OrderKind.Limit := by
      simp [create_order_from_request, hmk]
    have hf0 : (create_order_from_request req oid).filledQuantity = 0 := rfl
    have hq' : 0 < (create_order_from_request req oid).quantity := hq
    have hqq : (create_order_from_request req oid).quantity = req.quantity := rfl
    have hprice' : (create_order_from_request req oid).price = some lim := hprice
    have hex := execute_limit_no_cross (create_order_from_request req oid) now ob lim
      hprice' hq' hf0 helig
    cases hside : (create_order_from_request req oid).orderType with
    | Buy =>
      rw [hside] at hex
      simp only [hside] at hsort ⊢
      simp only [process_order, hm, hv, match_order, hob, hk, hex]
      simp only [List.isEmpty_nil, if_true]
      rw [if_neg (show ¬ (OrderKind.Limit = OrderKind.Market) by decide)]
      refine ⟨?_, True.intro, ?_⟩
      · rw [if_neg (by rw [hqq]; omega)]
      · refine ⟨_, alookup_setOrderbook_self _ _ _ (by rw [hob]; rfl), ?_⟩
        exact alookup_insertTail ob.bids lim _ hsort
    | Sell =>
      rw [hside] at hex
      simp only [hside] at hsort ⊢
      simp only [process_order, hm, hv, match_order, hob, hk, hex]
      simp only [List.isEmpty_nil, if_true]
      rw [if_neg (show ¬ (OrderKind.Limit = OrderKind.Market) by decide)]
      refine ⟨?_, True.intro, ?_⟩
      · rw [if_neg (by rw [hqq]; omega)]
      · refine ⟨_, alookup_setOrderbook_self _ _ _ (by rw [hob]; rfl), ?_⟩
        exact alookup_insertTail ob.asks lim _ hsort
  · intro tk now ob lim S hp hf0 hS hpos hlt hsort
    simp only [execute_limit_order, hp] at hS ⊢
    cases hside : tk.orderType with
    | Buy =>
      simp only [hside] at hS hsort ⊢
      rw [hf0] at hS ⊢
      have hrf := matchLevels_rem_fq tk now tk.quantity 0
        (ob.asks.filter (fun l => decide (l.1 ≤ lim)))
      rw [← hS] at hrf
      rw [hrf.1, hrf.2, zero_add]
      rw [if_pos (show tk.quantity - S > 0 by omega)]
      rw [if_neg (show ¬ (S ≥ tk.quantity) by omega), if_pos hpos]
      refine ⟨rfl, rfl, ?_⟩
      refine ⟨_, alookup_insertTail ob.bids lim _ hsort, ?_⟩
      rw [List.getLast?_concat]
    | Sell =>
      simp only [hside] at hS hsort ⊢
      rw [hf0] at hS ⊢
      have hrf := matchLevels_rem_fq tk now tk.quantity 0
        ((ob.bids.filter (fun l => decide (lim ≤ l.1))).reverse)
      rw [← hS] at hrf
      rw [hrf.1, hrf.2, zero_add]
      rw [if_pos (show tk.quantity - S > 0 by omega)]
      rw [if_neg (show ¬ (S ≥ tk.quantity) by omega), if_pos hpos]
      refine ⟨rfl, rfl, ?_⟩
      refine ⟨_, alookup_insertTail ob.asks lim _ hsort, ?_⟩
      rw [List.getLast?_concat]

/-- Witness for C7 amended: the empty-book Limit Buy of
`C7_counterexample` rests in full with a "PARTIALLY_FILLED" reply, and a
Limit Buy 60 @ 10 against ask (10, 50) fills 50 and rests 10. -/
theorem C7_amended_witness :
    ((process_order c7State c7Req 600 7).1.status = "PARTIALLY_FILLED" ∧
     (process_order c7State c7Req 600 7).1.filledQuantity = some 0 ∧
     ∃ ob', alookup (create_order_from_request c7Req 600).marketId
         (process_order c7State c7Req 600 7).2.orderbooks = some ob' ∧
       alookup 5 (match (create_order_from_request c7Req 600).orderType with
                  | OrderType.Buy => ob'.bids
                  | OrderType.Sell => ob'.asks) =
         some ((alookup 5 (match (create_order_from_request c7Req 600).orderType with
                  | OrderType.Buy => (⟨1, [], [], 0⟩ : OrderBook).bids
                  | OrderType.Sell => (⟨1, [], [], 0⟩ : OrderBook).asks)).getD [] ++
               [{ create_order_from_request c7Req 600 with
                    filledQuantity := 0
                    status := .Pending }])) ∧
    ((execute_limit_order c7Taker 7 cxBook).taker.status = .PartiallyFilled ∧
     (execute_limit_order c7Taker 7 cxBook).taker.filledQuantity = 50 ∧
     ∃ q, alookup 10 (match c7Taker.orderType with
           | OrderType.Buy => (execute_limit_order c7Taker 7 cxBook).book.bids
           | OrderType.Sell => (execute_limit_order c7Taker 7 cxBook).book.asks) = some q ∧
       q.getLast? = some ({ c7Taker with
                              quantity := c7Taker.quantity - 50
                              filledQuantity := 0
                              status := .Pending })) :=
  ⟨C7_amended.1 c7State c7Req 600 7 5 mkUnit ⟨20, 50⟩
      [(1, ⟨1, [(20, ⟨50, 50⟩)]⟩)] ⟨1, [], [], 0⟩
      (by decide) rfl (by decide) (by decide) rfl (by decide)
      (List.Pairwise.nil)
      (by intro l hl; exact absurd hl (List.not_mem_nil l)),
   C7_amended.2 c7Taker 7 cxBook 10 50 rfl rfl (by decide) (by decide) (by decide)
      (by decide)⟩

/-! ## C8 lemmas: removal of a freshly rested order, balance restore -/

theorem removeFirst_none_of_fresh (oid : Nat) (q : List EOrder)
    (h : ∀ m ∈ q, m.oid ≠ oid) : removeFirst oid q = none := by
  induction q with
  | nil => rfl
  | cons m rest ih =>
    simp only [removeFirst]
    rw [if_neg (h m (List.mem_cons_self m rest))]
    rw [ih (fun m' hm' => h m' (List.mem_cons_of_mem m hm'))]

theorem removeFirst_append_fresh (o : EOrder) (q : List EOrder)
    (h : ∀ m ∈ q, m.oid ≠ o.oid) : removeFirst o.oid (q ++ [o]) = some (o, q) := by
  induction q with
  | nil => simp [removeFirst]
  | cons m rest ih =>
    simp only [List.cons_append, removeFirst]
    rw [if_neg (h m (List.mem_cons_self m rest))]
    rw [show rest.append [o] = rest ++ [o] from rfl]
    rw [ih (fun m' hm' => h m' (List.mem_cons_of_mem m hm'))]

theorem removeFromLevels_none_of_fresh (oid : Nat) (side : List Level)
    (h : ∀ l ∈ side, ∀ m ∈ l.2, m.oid ≠ oid) : removeFromLevels oid side = none := by
  induction side with
  | nil => rfl
  | cons hd tl ih =>
    obtain ⟨p, q⟩ := hd
    simp only [removeFromLevels]
    rw [removeFirst_none_of_fresh oid q (h (p, q) (List.mem_cons_self _ tl))]
    rw [ih (fun l hl => h l (List.mem_cons_of_mem _ hl))]

theorem removeFromLevels_insertTail (o : EOrder) (price : Int) (side : List Level)
    (h : ∀ l ∈ side, ∀ m ∈ l.2, m.oid ≠ o.oid) :
    ∃ side', removeFromLevels o.oid (insertTail side price o) = some (o, side') ∧
      (∀ l ∈ side', ∀ m ∈ l.2, m.oid ≠ o.oid) := by
  induction side with
  | nil =>
    refine ⟨[(price, [])], ?_, ?_⟩
    · simp [insertTail, removeFromLevels, removeFirst]
    · intro l hl m hm
      rcases List.mem_singleton.1 hl with rfl
      exact absurd hm (List.not_mem_nil m)
  | cons hd tl ih =>
    obtain ⟨p, q⟩ := hd
    have hq : ∀ m ∈ q, m.oid ≠ o.oid := h (p, q) (List.mem_cons_self _ tl)
    have htl : ∀ l ∈ tl, ∀ m ∈ l.2, m.oid ≠ o.oid :=
      fun l hl => h l (List.mem_cons_of_mem _ hl)
    by_cases hp : p = price
    · refine ⟨(p, q) :: tl, ?_, h⟩
      simp only [insertTail, if_pos hp, removeFromLevels]
      rw [removeFirst_append_fresh o q hq]
    · by_cases hlt : price < p
      · refine ⟨(price, []) :: (p, q) :: tl, ?_, ?_⟩
        · simp [insertTail, hp, hlt, removeFromLevels, removeFirst]
        · intro l hl m hm
          rcases List.mem_cons.1 hl with rfl | hl
          · exact absurd hm (List.not_mem_nil m)
          · exact h l hl m hm
      · obtain ⟨tl', htl1, htl2⟩ := ih htl
        refine ⟨(p, q) :: tl', ?_, ?_⟩
        · simp only [insertTail, if_neg hp, if_neg hlt, removeFromLevels]
          rw [removeFirst_none_of_fresh o.oid q hq, htl1]
        · intro l hl m hm
          rcases List.mem_cons.1 hl with rfl | hl
          · exact hq m hm
          · exact htl2 l hl m hm

theorem sideHasOid_false_of_fresh (side : List Level) (oid : Nat)
    (h : ∀ l ∈ side, ∀ m ∈ l.2, m.oid ≠ oid) : sideHasOid side oid = false := by
  unfold sideHasOid
  simp only [List.any_eq_false, Bool.not_eq_true, decide_eq_true_eq]
  intro l hl m hm
  exact h l hl m hm

theorem updTokenBalances_restore (tb : TokenBalances) (tok : Nat) (da dl da' dl' : Int)
    (hsome : (alookup tok tb).isSome = true)
    (hval : ∀ b, alookup tok tb = some b →
        wrap64 (wrap64 (b.available + da) + da') = b.available ∧
        wrap64 (wrap64 (b.locked + dl) + dl') = b.locked) :
    updTokenBalances tok da' dl' (updTokenBalances tok da dl tb) = tb := by
  induction tb with
  | nil => simp [alookup] at hsome
  | cons hd tl ih =>
    obtain ⟨k, b⟩ := hd
    by_cases hk : k = tok
    · subst hk
      have hb := hval b (by rw [alookup_cons, if_pos rfl])
      simp only [updTokenBalances, if_pos rfl]
      rw [if_true, hb.1, hb.2]
    · rw [alookup_cons, if_neg hk] at hsome
      have hval' : ∀ b', alookup tok tl = some b' →
          wrap64 (wrap64 (b'.available + da) + da') = b'.available ∧
          wrap64 (wrap64 (b'.locked + dl) + dl') = b'.locked := by
        intro b' hb'
        exact hval b' (by rw [alookup_cons, if_neg hk]; exact hb')
      simp only [updTokenBalances, if_neg hk]
      rw [ih hsome hval']

theorem update_update_restore (bals : Balances) (u tok : Nat) (da dl da' dl' : Int)
    (hsome : hasEntry bals u tok = true)
    (hA : wrap64 (wrap64 (availOf bals u tok + da) + da') = availOf bals u tok)
    (hL : wrap64 (wrap64 (lockedOf bals u tok + dl) + dl') = lockedOf bals u tok) :
    update_user_balance (update_user_balance bals u tok da dl) u tok da' dl' = bals := by
  induction bals with
  | nil => simp [hasEntry, alookup] at hsome
  | cons hd tl ih =>
    obtain ⟨k, ub⟩ := hd
    by_cases hk : k = u
    · subst hk
      unfold hasEntry at hsome
      rw [alookup_cons, if_pos rfl] at hsome
      have hA' : availOf ((k, ub) :: tl) k tok = tbAvail ub.tokenBalances tok := by
        rw [availOf_def, alookup_cons, if_pos rfl]
      have hL' : lockedOf ((k, ub) :: tl) k tok = tbLocked ub.tokenBalances tok := by
        rw [lockedOf_def, alookup_cons, if_pos rfl]
      rw [hA'] at hA
      rw [hL'] at hL
      rw [update_user_balance_cons, if_pos rfl, update_user_balance_cons, if_pos rfl]
      have : updTokenBalances tok da' dl' (updTokenBalances tok da dl ub.tokenBalances) =
          ub.tokenBalances := by
        apply updTokenBalances_restore _ _ _ _ _ _ hsome
        intro b hb
        unfold tbAvail at hA
        unfold tbLocked at hL
        rw [hb] at hA hL
        exact ⟨hA, hL⟩
      rw [this]
    · unfold hasEntry at hsome
      rw [alookup_cons, if_neg hk] at hsome
      have hA' : availOf ((k, ub) :: tl) u tok = availOf tl u tok := by
        rw [availOf_def, alookup_cons, if_neg hk, ← availOf_def]
      have hL' : lockedOf ((k, ub) :: tl) u tok = lockedOf tl u tok := by
        rw [lockedOf_def, alookup_cons, if_neg hk, ← lockedOf_def]
      rw [hA'] at hA
      rw [hL'] at hL
      rw [update_user_balance_cons, if_neg hk, update_user_balance_cons, if_neg hk]
      rw [ih hsome hA hL]

/-- Locking and then unlocking the same in-range amount restores the
ledger exactly. -/
theorem lock_unlock_restore (bals : Balances) (u tok : Nat) (amt : Int)
    (hsome : hasEntry bals u tok = true)
    (hpos : 0 < amt) (h61 : amt ≤ 2 ^ 61)
    (ha : small64 (availOf bals u tok)) (hl : small64 (lockedOf bals u tok)) :
    unlock (update_user_balance bals u tok (-amt) amt) u tok amt = bals := by
  unfold unlock
  rw [if_neg (by omega)]
  apply update_update_restore bals u tok (-amt) amt amt (-amt) hsome
  · obtain ⟨h1, h2⟩ := ha
    have hin : wrap64 (availOf bals u tok + -amt) = availOf bals u tok + -amt :=
      wrap64_eq_of_inI64 (by unfold inI64 i64min i64max; omega)
    rw [hin, wrap64_eq_of_inI64 (by unfold inI64 i64min i64max; omega)]
    ring
  · obtain ⟨h1, h2⟩ := hl
    have hin : wrap64 (lockedOf bals u tok + amt) = lockedOf bals u tok + amt :=
      wrap64_eq_of_inI64 (by unfold inI64 i64min i64max; omega)
    rw [hin, wrap64_eq_of_inI64 (by unfold inI64 i64min i64max; omega)]
    ring

/-- C8: cancel round trip.  A freshly placed, crossing-free Limit order
rests in full; cancelling it by its owner replies CANCELLED with success,
restores the user's balances exactly to their pre-order values (unlocking
`quantity` base for a Sell, `notional(price, quantity)` quote for a Buy),
and removes the order from the book. -/
theorem C8_cancel_round_trip
    (st : EngineState) (req : OrderRequest) (creq : CancelOrderRequest)
    (oid : Nat) (now lim amt : Int) (tok : Nat)
    (market : MarketInfo) (ob : OrderBook) (ub : UserBalance)
    (hmk : alookup req.marketId st.markets = some market)
    (hkind : req.orderKind ≠ "Market")
    (hprice : req.price = some lim)
    (hq : 0 < req.quantity)
    (hob : alookup req.marketId st.orderbooks = some ob)
    (hub : alookup req.userId st.balances = some ub)
    (hres : required_reservation st (create_order_from_request req oid) market =
      .ok ⟨tok, amt⟩)
    (hhe : hasEntry st.balances req.userId tok = true)
    (hav : amt ≤ availOf st.balances req.userId tok)
    (hpos : 0 < amt) (h61 : amt ≤ 2 ^ 61)
    (ha : small64 (availOf st.balances req.userId tok))
    (hl : small64 (lockedOf st.balances req.userId tok))
    (hnca : ∀ l ∈ ob.asks, ¬ (l.1 ≤ lim))
    (hncb : ∀ l ∈ ob.bids, ¬ (lim ≤ l.1))
    (hfa : ∀ l ∈ ob.asks, ∀ m ∈ l.2, m.oid ≠ oid)
    (hfb : ∀ l ∈ ob.bids, ∀ m ∈ l.2, m.oid ≠ oid)
    (hcm : creq.marketId = req.marketId)
    (hco : creq.orderId = oid)
    (hcu : creq.userId = req.userId) :
    (process_cancel_order (process_order st req oid now).2 creq).1.status = "CANCELLED" ∧
    (process_cancel_order (process_order st req oid now).2 creq).1.success = true ∧
    (process_cancel_order (process_order st req oid now).2 creq).2.balances = st.balances ∧
    bookHasOid (process_cancel_order (process_order st req oid now).2 creq).2
      req.marketId oid = false := by
  have hOm : (create_order_from_request req oid).marketId = req.marketId := rfl
  have hOu : (create_order_from_request req oid).userId = req.userId := rfl
  have hOq : (create_order_from_request req oid).quantity = req.quantity := rfl
  have hOp : (create_order_from_request req oid).price = req.price := rfl
  have hOo : (create_order_from_request req oid).oid = oid := rfl
  have hk : (create_order_from_request req oid).orderKind = OrderKind.Limit := by
    simp [create_order_from_request, hkind]
  have hf0 : (create_order_from_request req oid).filledQuantity = 0 := rfl
  have hq' : 0 < (create_order_from_request req oid).quantity := hq
  have hprice' : (create_order_from_request req oid).price = some lim := hprice
  have hm' : alookup (create_order_from_request req oid).marketId st.markets = some market := hmk
  have hob' : alookup (create_order_from_request req oid).marketId st.orderbooks = some ob := hob
  have htb : tbAvail ub.tokenBalances tok = availOf st.balances req.userId tok := by
    rw [availOf_def, hub]
  have hlk : lock st.balances req.userId tok amt =
      .ok (update_user_balance st.balances req.userId tok (-amt) amt) := by
    unfold lock
    rw [if_neg (by omega), if_neg (by omega)]
  have hv : validate_and_lock_order_balance st (create_order_from_request req oid) =
      .ok (⟨tok, amt⟩, update_user_balance st.balances req.userId tok (-amt) amt) := by
    simp only [validate_and_lock_order_balance, hOm, hOu, hmk, hub, hres]
    rw [if_neg (by rw [htb]; omega)]
    simp only [hlk]
  have helig : (match (create_order_from_request req oid).orderType with
       | OrderType.Buy => ∀ l ∈ ob.asks, ¬ (l.1 ≤ lim)
       | OrderType.Sell => ∀ l ∈ ob.bids, ¬ (lim ≤ l.1)) := by
    cases (create_order_from_request req oid).orderType
    · exact hnca
    · exact hncb
  have hex := execute_limit_no_cross (create_order_from_request req oid) now ob lim
    hprice' hq' hf0 helig
  cases hside : (create_order_from_request req oid).orderType with
  | Buy =>
    rw [hside] at hex
    have hres' := hres
    simp only [required_reservation, hside, hk, hOp, hprice, hOq] at hres'
    cases hsmd : safe_multiply_divide lim req.quantity market.baseCurrency.decimals with
    | error e =>
      rw [hsmd] at hres'
      simp at hres'
    | ok a =>
      rw [hsmd] at hres'
      have hres2 : market.quoteCurrency.id = tok ∧ a = amt := by
        simpa using hres'
      obtain ⟨htok, hamt⟩ := hres2
      rw [hamt] at hsmd
      have hfrB : ∀ l ∈ ob.bids, ∀ m ∈ l.2, m.oid ≠
          ({ create_order_from_request req oid with
              filledQuantity := 0, status := OrderStatus.Pending } : EOrder).oid := hfb
      obtain ⟨bids', hrem, hfresh⟩ := removeFromLevels_insertTail
        { create_order_from_request req oid with
            filledQuantity := 0, status := OrderStatus.Pending } lim ob.bids hfrB
      have hfresh' : ∀ l ∈ bids', ∀ m ∈ l.2, m.oid ≠ oid := hfresh
      have htkeq : ({ create_order_from_request req oid with
            filledQuantity := 0, status := OrderStatus.Pending } : EOrder) =
          { oid := (create_order_from_request req oid).oid, userId := req.userId, marketId := req.marketId, orderType := OrderType.Buy, orderKind := OrderKind.Limit, price := some lim, quantity := req.quantity, filledQuantity := 0, status := OrderStatus.Pending, createdAt := (create_order_from_request req oid).createdAt } := by
        simp only [hOu, hOm, hside, hk, hOp, hprice, hOq]
      rw [htkeq] at hrem
      have hrem' : removeFromLevels oid (insertTail ob.bids lim
          { oid := (create_order_from_request req oid).oid, userId := req.userId, marketId := req.marketId, orderType := OrderType.Buy, orderKind := OrderKind.Limit, price := some lim, quantity := req.quantity, filledQuantity := 0, status := OrderStatus.Pending, createdAt := (create_order_from_request req oid).createdAt }) =
          some ({ oid := (create_order_from_request req oid).oid, userId := req.userId, marketId := req.marketId, orderType := OrderType.Buy, orderKind := OrderKind.Limit, price := some lim, quantity := req.quantity, filledQuantity := 0, status := OrderStatus.Pending, createdAt := (create_order_from_request req oid).createdAt }, bids') := hrem
      simp only [process_order, hm', hv, match_order, hob', hk, hex]
      simp only [List.isEmpty_nil, if_true]
      rw [if_neg (show ¬ (OrderKind.Limit = OrderKind.Market) by decide)]
      refine ⟨?_, ?_, ?_, ?_⟩
      · simp only [process_cancel_order, remove_order_from_orderbook, hcm, hco, hcu,
          hOm, hOu, hOq, hOp, hprice, hk, hside, hmk, hob, alookup_setOrderbook_self,
          Option.isSome_some, hrem', sub_zero, hsmd, ne_eq, eq_self_iff_true,
          not_true, if_false, if_true]
      · simp only [process_cancel_order, remove_order_from_orderbook, hcm, hco, hcu,
          hOm, hOu, hOq, hOp, hprice, hk, hside, hmk, hob, alookup_setOrderbook_self,
          Option.isSome_some, hrem', sub_zero, hsmd, ne_eq, eq_self_iff_true,
          not_true, if_false, if_true]
      · simp only [process_cancel_order, remove_order_from_orderbook, hcm, hco, hcu,
          hOm, hOu, hOq, hOp, hprice, hk, hside, hmk, hob, alookup_setOrderbook_self,
          Option.isSome_some, hrem', sub_zero, hsmd, ne_eq, eq_self_iff_true,
          not_true, if_false, if_true]
        rw [htok]
        exact lock_unlock_restore st.balances req.userId tok amt hhe hpos h61 ha hl
      · simp only [process_cancel_order, remove_order_from_orderbook, hcm, hco, hcu,
          hOm, hOu, hOq, hOp, hprice, hk, hside, hmk, hob, alookup_setOrderbook_self,
          Option.isSome_some, hrem', sub_zero, hsmd, ne_eq, eq_self_iff_true,
          not_true, if_false, if_true, bookHasOid,
          sideHasOid_false_of_fresh bids' oid hfresh',
          sideHasOid_false_of_fresh ob.asks oid hfa, Bool.or_self]
  | Sell =>
    rw [hside] at hex
    have hres' := hres
    simp only [required_reservation, hside, hOq] at hres'
    have hres2 : market.baseCurrency.id = tok ∧ req.quantity = amt := by
      simpa using hres'
    obtain ⟨htok, hamt⟩ := hres2
    have hfrA : ∀ l ∈ ob.asks, ∀ m ∈ l.2, m.oid ≠
        ({ create_order_from_request req oid with
            filledQuantity := 0, status := OrderStatus.Pending } : EOrder).oid := hfa
    obtain ⟨asks', hrem, hfresh⟩ := removeFromLevels_insertTail
      { create_order_from_request req oid with
          filledQuantity := 0, status := OrderStatus.Pending } lim ob.asks hfrA
    have hfresh' : ∀ l ∈ asks', ∀ m ∈ l.2, m.oid ≠ oid := hfresh
    have htkeq : ({ create_order_from_request req oid with
          filledQuantity := 0, status := OrderStatus.Pending } : EOrder) =
        { oid := (create_order_from_request req oid).oid, userId := req.userId, marketId := req.marketId, orderType := OrderType.Sell, orderKind := OrderKind.Limit, price := some lim, quantity := req.quantity, filledQuantity := 0, status := OrderStatus.Pending, createdAt := (create_order_from_request req oid).createdAt } := by
      simp only [hOu, hOm, hside, hk, hOp, hprice, hOq]
    rw [htkeq] at hrem
    have hrem' : removeFromLevels oid (insertTail ob.asks lim
        { oid := (create_order_from_request req oid).oid, userId := req.userId, marketId := req.marketId, orderType := OrderType.Sell, orderKind := OrderKind.Limit, price := some lim, quantity := req.quantity, filledQuantity := 0, status := OrderStatus.Pending, createdAt := (create_order_from_request req oid).createdAt }) =
        some ({ oid := (create_order_from_request req oid).oid, userId := req.userId, marketId := req.marketId, orderType := OrderType.Sell, orderKind := OrderKind.Limit, price := some lim, quantity := req.quantity, filledQuantity := 0, status := OrderStatus.Pending, createdAt := (create_order_from_request req oid).createdAt }, asks') := hrem
    have hnb : removeFromLevels oid ob.bids = none :=
      removeFromLevels_none_of_fresh oid ob.bids hfb
    simp only [process_order, hm', hv, match_order, hob', hk, hex]
    simp only [List.isEmpty_nil, if_true]
    rw [if_neg (show ¬ (OrderKind.Limit = OrderKind.Market) by decide)]
    refine ⟨?_, ?_, ?_, ?_⟩
    · simp only [process_cancel_order, remove_order_from_orderbook, hcm, hco, hcu,
        hOm, hOu, hOq, hOp, hprice, hk, hside, hmk, hob, alookup_setOrderbook_self,
        Option.isSome_some, hnb, hrem', sub_zero, ne_eq, eq_self_iff_true,
        not_true, if_false, if_true]
    · simp only [process_cancel_order, remove_order_from_orderbook, hcm, hco, hcu,
        hOm, hOu, hOq, hOp, hprice, hk, hside, hmk, hob, alookup_setOrderbook_self,
        Option.isSome_some, hnb, hrem', sub_zero, ne_eq, eq_self_iff_true,
        not_true, if_false, if_true]
    · simp only [process_cancel_order, remove_order_from_orderbook, hcm, hco, hcu,
        hOm, hOu, hOq, hOp, hprice, hk, hside, hmk, hob, alookup_setOrderbook_self,
        Option.isSome_some, hnb, hrem', sub_zero, ne_eq, eq_self_iff_true,
        not_true, if_false, if_true]
      rw [htok, hamt]
      exact lock_unlock_restore st.balances req.userId tok amt hhe hpos h61 ha hl
    · simp only [process_cancel_order, remove_order_from_orderbook, hcm, hco, hcu,
        hOm, hOu, hOq, hOp, hprice, hk, hside, hmk, hob, alookup_setOrderbook_self,
        Option.isSome_some, hnb, hrem', sub_zero, ne_eq, eq_self_iff_true,
        not_true, if_false, if_true, bookHasOid,
        sideHasOid_false_of_fresh asks' oid hfresh',
        sideHasOid_false_of_fresh ob.bids oid hfb, Bool.or_self]

/-- Witness for C8: placing Sell Limit 100 @ 10 on an empty book and
cancelling it restores user 1's balances, removes order 900 from the book,
and replies CANCELLED. -/
theorem C8_witness :
    (process_cancel_order (process_order c8State c8Req 900 1).2 c8Creq).1.status = "CANCELLED" ∧
    (process_cancel_order (process_order c8State c8Req 900 1).2 c8Creq).1.success = true ∧
    (process_cancel_order (process_order c8State c8Req 900 1).2 c8Creq).2.balances =
      c8State.balances ∧
    bookHasOid (process_cancel_order (process_order c8State c8Req 900 1).2 c8Creq).2
      c8Req.marketId 900 = false :=
  C8_cancel_round_trip c8State c8Req c8Creq 900 1 10 100 10 mkUnit
    ⟨1, [], [], 0⟩ ⟨1, [(10, ⟨100, 0⟩)]⟩
    rfl (by decide) rfl (by decide) rfl rfl rfl (by decide) (by decide)
    (by decide) (by decide) (by decide) (by decide)
    (by intro l hl; exact absurd hl (List.not_mem_nil l))
    (by intro l hl; exact absurd hl (List.not_mem_nil l))
    (by intro l hl; exact absurd hl (List.not_mem_nil l))
    (by intro l hl; exact absurd hl (List.not_mem_nil l))
    rfl rfl rfl

/-! ## C2 lemmas: price-time priority of the matching loops -/

theorem matchQueue_trades_price (tk : EOrder) (now price rem fq : Int)
    (queue : List EOrder) :
    ∀ t ∈ (matchQueue tk now price rem fq queue).trades, t.price = price := by
  induction queue generalizing rem fq with
  | nil => intro t ht; exact absurd ht (List.not_mem_nil t)
  | cons m rest ih =>
    intro t ht
    simp only [matchQueue] at ht
    split at ht
    · exact absurd ht (List.not_mem_nil t)
    · split at ht
      · rcases List.mem_cons.1 ht with rfl | ht
        · rfl
        · exact ih _ _ t ht
      · rcases List.mem_cons.1 ht with rfl | ht
        · rfl
        · exact absurd ht (List.not_mem_nil t)

theorem makerOidOf_mkTrade (tk m : EOrder) (price q now : Int) :
    makerOidOf tk.orderType (mkTrade tk m price q now) = m.oid := by
  cases htk : tk.orderType <;> simp [makerOidOf, mkTrade, htk]

theorem matchQueue_trades_maker (tk : EOrder) (now price rem fq : Int)
    (queue : List EOrder) :
    ∀ t ∈ (matchQueue tk now price rem fq queue).trades,
      makerOidOf tk.orderType t ∈ queue.map (·.oid) := by
  induction queue generalizing rem fq with
  | nil => intro t ht; exact absurd ht (List.not_mem_nil t)
  | cons m rest ih =>
    intro t ht
    simp only [matchQueue] at ht
    split at ht
    · exact absurd ht (List.not_mem_nil t)
    · split at ht
      · rcases List.mem_cons.1 ht with rfl | ht
        · rw [makerOidOf_mkTrade]
          exact List.mem_cons_self _ _
        · exact List.mem_cons_of_mem _ (ih _ _ t ht)
      · rcases List.mem_cons.1 ht with rfl | ht
        · rw [makerOidOf_mkTrade]
          exact List.mem_cons_self _ _
        · exact absurd ht (List.not_mem_nil t)

/-- FIFO within one level: the makers of the emitted trades are an
initial segment of the queue, in admission order. -/
theorem matchQueue_fifo (tk : EOrder) (now price rem fq : Int)
    (queue : List EOrder) :
    ∃ k, ((matchQueue tk now price rem fq queue).trades.map
        (makerOidOf tk.orderType)) = (queue.take k).map (·.oid) := by
  induction queue generalizing rem fq with
  | nil => exact ⟨0, rfl⟩
  | cons m rest ih =>
    simp only [matchQueue]
    split
    · exact ⟨0, rfl⟩
    · split
      · obtain ⟨k, hk⟩ := ih (rem - min rem (m.quantity - m.filledQuantity))
          (fq + min rem (m.quantity - m.filledQuantity))
        refine ⟨k + 1, ?_⟩
        simp only [List.map_cons, List.take_succ_cons, makerOidOf_mkTrade, hk]
      · refine ⟨1, ?_⟩
        simp only [List.map_cons, List.take_succ_cons, List.take_zero,
          makerOidOf_mkTrade, List.map_nil]

/-- A level queue that stays non-empty was stopped by the taker running
out: the returned remaining quantity is `0`. -/
theorem matchQueue_queue_ne_nil (tk : EOrder) (now price rem fq : Int)
    (queue : List EOrder)
    (h : (matchQueue tk now price rem fq queue).queue ≠ []) :
    (matchQueue tk now price rem fq queue).rem = 0 := by
  induction queue generalizing rem fq with
  | nil => exact absurd rfl h
  | cons m rest ih =>
    by_cases h0 : rem = 0
    · simp only [matchQueue, if_pos h0]
      exact h0
    · by_cases hf : m.filledQuantity + min rem (m.quantity - m.filledQuantity) ≥ m.quantity
      · simp only [matchQueue, if_neg h0, if_pos hf] at h ⊢
        exact ih _ _ h
      · simp only [matchQueue, if_neg h0, if_neg hf] at h ⊢
        rcases min_choice rem (m.quantity - m.filledQuantity) with hm | hm <;> omega

theorem matchLevels_zero (tk : EOrder) (now fq : Int) (levels : List Level) :
    matchLevels tk now 0 fq levels = ⟨0, fq, [], [], levels⟩ := by
  cases levels with
  | nil => rfl
  | cons hd tl => simp [matchLevels]

theorem matchLevels_trades_price_mem (tk : EOrder) (now rem fq : Int)
    (levels : List Level) :
    ∀ t ∈ (matchLevels tk now rem fq levels).trades,
      t.price ∈ levels.map Prod.fst := by
  induction levels generalizing rem fq with
  | nil => intro t ht; exact absurd ht (List.not_mem_nil t)
  | cons hd rest ih =>
    obtain ⟨p, queue⟩ := hd
    intro t ht
    simp only [matchLevels] at ht
    split at ht
    · exact absurd ht (List.not_mem_nil t)
    · rcases List.mem_append.1 ht with ht | ht
      · rw [matchQueue_trades_price tk now p rem fq queue t ht]
        exact List.mem_cons_self _ _
      · exact List.mem_cons_of_mem _ (ih _ _ t ht)

/-- Every trade's maker rests (in the pre-match levels) at the level
whose key is the trade's price. -/
theorem matchLevels_maker_loc (tk : EOrder) (now rem fq : Int)
    (levels : List Level) :
    ∀ t ∈ (matchLevels tk now rem fq levels).trades,
      ∃ p q, (p, q) ∈ levels ∧ t.price = p ∧
        makerOidOf tk.orderType t ∈ q.map (·.oid) := by
  induction levels generalizing rem fq with
  | nil => intro t ht; exact absurd ht (List.not_mem_nil t)
  | cons hd rest ih =>
    obtain ⟨p, queue⟩ := hd
    intro t ht
    simp only [matchLevels] at ht
    split at ht
    · exact absurd ht (List.not_mem_nil t)
    · rcases List.mem_append.1 ht with ht | ht
      · exact ⟨p, queue, List.mem_cons_self _ _,
          matchQueue_trades_price tk now p rem fq queue t ht,
          matchQueue_trades_maker tk now p rem fq queue t ht⟩
      · obtain ⟨p', q', hm, hp', ho⟩ := ih _ _ t ht
        exact ⟨p', q', List.mem_cons_of_mem _ hm, hp', ho⟩

theorem matchLevels_levels_key_mem (tk : EOrder) (now rem fq : Int)
    (levels : List Level) :
    ∀ p q, (p, q) ∈ (matchLevels tk now rem fq levels).levels →
      p ∈ levels.map Prod.fst := by
  induction levels generalizing rem fq with
  | nil => intro p q hm; exact absurd hm (List.not_mem_nil _)
  | cons hd rest ih =>
    obtain ⟨pl, queue⟩ := hd
    intro p q hm
    simp only [matchLevels] at hm
    split at hm
    · exact List.mem_map_of_mem Prod.fst hm
    · split at hm
      · exact List.mem_cons_of_mem _ (ih _ _ p q hm)
      · rcases List.mem_cons.1 hm with hm | hm
        · rw [show p = pl from congrArg Prod.fst hm]
          exact List.mem_cons_self _ _
        · exact List.mem_cons_of_mem _ (ih _ _ p q hm)

theorem pairwise_or_eq_of_all_eq {α : Type} {R : α → α → Prop} (l : List α) (c : α)
    (h : ∀ x ∈ l, x = c) : List.Pairwise (fun a b => R a b ∨ a = b) l := by
  induction l with
  | nil => exact List.Pairwise.nil
  | cons x xs ih =>
    refine List.Pairwise.cons ?_ (ih (fun y hy => h y (List.mem_cons_of_mem x hy)))
    intro y hy
    right
    rw [h x (List.mem_cons_self x xs), h y (List.mem_cons_of_mem x hy)]

/-- Best price first: when the iterated level keys are sorted by the
side's priority relation, the emitted trade prices are monotone in that
relation. -/
theorem matchLevels_pairwise {R : Int → Int → Prop} (tk : EOrder) (now rem fq : Int)
    (levels : List Level) (hsort : List.Pairwise R (levels.map Prod.fst)) :
    List.Pairwise (fun a b => R a b ∨ a = b)
      ((matchLevels tk now rem fq levels).trades.map (·.price)) := by
  induction levels generalizing rem fq with
  | nil => exact List.Pairwise.nil
  | cons hd rest ih =>
    obtain ⟨pl, queue⟩ := hd
    simp only [List.map_cons, List.pairwise_cons] at hsort
    simp only [matchLevels]
    split
    · exact List.Pairwise.nil
    · rw [List.map_append, List.pairwise_append]
      refine ⟨?_, ih _ _ hsort.2, ?_⟩
      · apply pairwise_or_eq_of_all_eq _ pl
        intro x hx
        obtain ⟨t, ht, rfl⟩ := List.mem_map.1 hx
        exact matchQueue_trades_price tk now pl rem fq queue t ht
      · intro a ha b hb
        obtain ⟨t, ht, rfl⟩ := List.mem_map.1 ha
        obtain ⟨t', ht', rfl⟩ := List.mem_map.1 hb
        rw [matchQueue_trades_price tk now pl rem fq queue t ht]
        left
        exact hsort.1 t'.price (matchLevels_trades_price_mem tk now _ _ rest t' ht')

/-- No trade at a worse price while a better-priced maker keeps open
quantity: any level that survives the loop with a non-empty queue bounds
every emitted trade's price in the priority order. -/
theorem matchLevels_survivor {R : Int → Int → Prop} (tk : EOrder) (now rem fq : Int)
    (levels : List Level) (hsort : List.Pairwise R (levels.map Prod.fst)) :
    ∀ p q, (p, q) ∈ (matchLevels tk now rem fq levels).levels → q ≠ [] →
      ∀ t ∈ (matchLevels tk now rem fq levels).trades, R t.price p ∨ t.price = p := by
  induction levels generalizing rem fq with
  | nil => intro p q hm; exact absurd hm (List.not_mem_nil _)
  | cons hd rest ih =>
    obtain ⟨pl, queue⟩ := hd
    simp only [List.map_cons, List.pairwise_cons] at hsort
    intro p q hm hq t ht
    simp only [matchLevels] at hm ht
    split at hm
    · next h0 =>
      rw [if_pos h0] at ht
      exact absurd ht (List.not_mem_nil t)
    · next h0 =>
      rw [if_neg h0] at ht
      rcases List.mem_append.1 ht with ht | ht
      · -- the trade happened at this first level
        have hpt : t.price = pl := matchQueue_trades_price tk now pl rem fq queue t ht
        split at hm
        · -- this level emptied: the survivor is further away
          left
          rw [hpt]
          exact hsort.1 p (matchLevels_levels_key_mem tk now _ _ rest p q hm)
        · rcases List.mem_cons.1 hm with hm | hm
          · right
            injection hm with h1 h2
            rw [hpt, h1]
          · left
            rw [hpt]
            exact hsort.1 p (matchLevels_levels_key_mem tk now _ _ rest p q hm)
      · -- the trade happened at a later level
        split at hm
        · exact ih _ _ hsort.2 p q hm hq t ht
        · next hne =>
          rcases List.mem_cons.1 hm with hm | hm
          · -- survivor is this first level: the taker ran out, so the
            -- later levels emitted no trades at all
            have hrem0 : (matchQueue tk now pl rem fq queue).rem = 0 :=
              matchQueue_queue_ne_nil tk now pl rem fq queue
                (by simpa using hne)
            rw [hrem0, matchLevels_zero] at ht
            exact absurd ht (List.not_mem_nil t)
          · exact ih _ _ hsort.2 p q hm hq t ht

/-- FIFO through the level loop: the makers matched at one level key
form an initial segment of that level's queue. -/
theorem matchLevels_fifo {R : Int → Int → Prop} (tk : EOrder) (now rem fq : Int)
    (levels : List Level) (hsort : List.Pairwise R (levels.map Prod.fst))
    (hne : ∀ a b, R a b → a ≠ b) :
    ∀ p q, (p, q) ∈ levels →
      ∃ k, (((matchLevels tk now rem fq levels).trades.filter
          (fun t => t.price = p)).map (makerOidOf tk.orderType)) =
        (q.take k).map (·.oid) := by
  induction levels generalizing rem fq with
  | nil => intro p q hm; exact absurd hm (List.not_mem_nil _)
  | cons hd rest ih =>
    obtain ⟨pl, queue⟩ := hd
    simp only [List.map_cons, List.pairwise_cons] at hsort
    intro p q hm
    simp only [matchLevels]
    split
    · exact ⟨0, rfl⟩
    · rw [List.filter_append]
      rcases List.mem_cons.1 hm with hm | hm
      · obtain ⟨hp, hq⟩ := Prod.mk.injEq .. ▸ hm
        subst hp
        subst hq
        have h1 : (matchQueue tk now p rem fq q).trades.filter
            (fun t => decide (t.price = p)) = (matchQueue tk now p rem fq q).trades := by
          rw [List.filter_eq_self]
          intro t ht
          simp only [decide_eq_true_eq]
          exact matchQueue_trades_price tk now p rem fq q t ht
        have h2 : (matchLevels tk now (matchQueue tk now p rem fq q).rem
            (matchQueue tk now p rem fq q).fq rest).trades.filter
            (fun t => decide (t.price = p)) = [] := by
          rw [List.filter_eq_nil_iff]
          intro t ht
          simp only [decide_eq_true_eq]
          intro hpt
          exact hne p t.price
            (hsort.1 t.price (matchLevels_trades_price_mem tk now _ _ rest t ht))
            hpt.symm
        rw [h1, h2, List.append_nil]
        exact matchQueue_fifo tk now p rem fq q
      · have h1 : (matchQueue tk now pl rem fq queue).trades.filter
            (fun t => decide (t.price = p)) = [] := by
          rw [List.filter_eq_nil_iff]
          intro t ht
          simp only [decide_eq_true_eq]
          rw [matchQueue_trades_price tk now pl rem fq queue t ht]
          exact hne pl p (hsort.1 p (List.mem_map_of_mem Prod.fst hm))
        rw [h1, List.nil_append]
        exact ih _ _ hsort.2 p q hm

theorem alookup_mem {α β : Type} [DecidableEq α] (k : α) (v : β)
    (l : List (α × β)) (h : alookup k l = some v) : (k, v) ∈ l := by
  induction l with
  | nil => simp [alookup] at h
  | cons hd tl ih =>
    obtain ⟨k', v'⟩ := hd
    rw [alookup_cons] at h
    by_cases hk : k' = k
    · rw [if_pos hk] at h
      subst hk
      rw [Option.some_inj] at h
      subst h
      exact List.mem_cons_self _ _
    · rw [if_neg hk] at h
      exact List.mem_cons_of_mem _ (ih h)

theorem mergeSide_mem (orig : List Level) (pred : Int → Bool) (upd : List Level) :
    ∀ p q, (p, q) ∈ mergeSide orig pred upd →
      (pred p = false ∧ (p, q) ∈ orig) ∨ (pred p = true ∧ alookup p upd = some q) := by
  induction orig with
  | nil => intro p q hm; exact absurd hm (List.not_mem_nil _)
  | cons hd tl ih =>
    obtain ⟨po, qo⟩ := hd
    intro p q hm
    simp only [mergeSide] at hm
    split at hm
    · next hpred =>
      split at hm
      · next q' halk =>
        rcases List.mem_cons.1 hm with hm | hm
        · obtain ⟨hp, hq⟩ := Prod.mk.injEq .. ▸ hm
          subst hp
          subst hq
          exact Or.inr ⟨hpred, halk⟩
        · rcases ih p q hm with ⟨h1, h2⟩ | h2
          · exact Or.inl ⟨h1, List.mem_cons_of_mem _ h2⟩
          · exact Or.inr h2
      · rcases ih p q hm with ⟨h1, h2⟩ | h2
        · exact Or.inl ⟨h1, List.mem_cons_of_mem _ h2⟩
        · exact Or.inr h2
    · next hpred =>
      rcases List.mem_cons.1 hm with hm | hm
      · obtain ⟨hp, hq⟩ := Prod.mk.injEq .. ▸ hm
        subst hp
        subst hq
        exact Or.inl ⟨by simpa using hpred, List.mem_cons_self _ _⟩
      · rcases ih p q hm with ⟨h1, h2⟩ | h2
        · exact Or.inl ⟨h1, List.mem_cons_of_mem _ h2⟩
        · exact Or.inr h2

theorem tradesQtyOk_congr (side : OrderType) (f g : Nat → Int) (ts : List Trade)
    (h : ∀ t ∈ ts, f (makerOidOf side t) = g (makerOidOf side t)) :
    ∀ rem, tradesQtyOk side f rem ts = tradesQtyOk side g rem ts := by
  induction ts with
  | nil => intro rem; rfl
  | cons t ts ih =>
    intro rem
    simp only [tradesQtyOk]
    rw [h t (List.mem_cons_self t ts),
      ih (fun t' ht' => h t' (List.mem_cons_of_mem t ht')) (rem - t.quantity)]

theorem tradesQtyOk_append (side : OrderType) (f : Nat → Int) (ts1 ts2 : List Trade) :
    ∀ rem, tradesQtyOk side f rem (ts1 ++ ts2) =
      (tradesQtyOk side f rem ts1 &&
       tradesQtyOk side f (rem - ((ts1.map (·.quantity)).sum)) ts2) := by
  induction ts1 with
  | nil => intro rem; simp [tradesQtyOk]
  | cons t ts ih =>
    intro rem
    simp only [List.cons_append, tradesQtyOk, List.map_cons, List.sum_cons]
    rw [show ts.append ts2 = ts ++ ts2 from rfl]
    have harith : rem - t.quantity - (ts.map (·.quantity)).sum =
        rem - (t.quantity + (ts.map (·.quantity)).sum) := by ring
    rw [ih (rem - t.quantity), harith, Bool.and_assoc]

/-- Per-trade quantity at one level: each trade takes exactly
`min(taker remaining, maker remaining)`, the taker remaining falling by
each trade, the makers taken FIFO from the front. -/
theorem matchQueue_qty (tk : EOrder) (now price : Int) :
    ∀ (queue : List EOrder), (queue.map (·.oid)).Nodup →
    ∀ rem fq, tradesQtyOk tk.orderType (queueRemOf queue) rem
      (matchQueue tk now price rem fq queue).trades = true := by
  intro queue
  induction queue with
  | nil => intro _ rem fq; rfl
  | cons m rest ih =>
    intro hnd rem fq
    simp only [List.map_cons, List.nodup_cons] at hnd
    by_cases h0 : rem = 0
    · simp only [matchQueue, if_pos h0]
      rfl
    · have hqrm : queueRemOf (m :: rest) m.oid = m.quantity - m.filledQuantity := by
        simp [queueRemOf]
      by_cases hf : m.filledQuantity + min rem (m.quantity - m.filledQuantity) ≥ m.quantity
      · simp only [matchQueue, if_neg h0, if_pos hf]
        simp only [tradesQtyOk, makerOidOf_mkTrade, hqrm,
          show ∀ q2 : Int, (mkTrade tk m price q2 now).quantity = q2 from fun _ => rfl]
        have hcongr : ∀ t ∈ (matchQueue tk now price
              (rem - min rem (m.quantity - m.filledQuantity))
              (fq + min rem (m.quantity - m.filledQuantity)) rest).trades,
            queueRemOf (m :: rest) (makerOidOf tk.orderType t) =
              queueRemOf rest (makerOidOf tk.orderType t) := by
          intro t ht
          have hmem := matchQueue_trades_maker tk now price _ _ rest t ht
          have hne : ¬ (m.oid = makerOidOf tk.orderType t) := by
            intro he
            exact hnd.1 (by rw [he]; exact hmem)
          simp only [queueRemOf, if_neg hne]
        rw [tradesQtyOk_congr tk.orderType _ _ _ hcongr]
        rw [ih hnd.2 _ _]
        simp
      · simp only [matchQueue, if_neg h0, if_neg hf]
        simp only [tradesQtyOk, makerOidOf_mkTrade, hqrm,
          show ∀ q2 : Int, (mkTrade tk m price q2 now).quantity = q2 from fun _ => rfl]
        simp

/-- Per-trade quantity across the level loop, under global distinctness
of the resting order ids. -/
theorem matchLevels_qty (tk : EOrder) (now : Int) :
    ∀ (levels : List Level), (levelsOids levels).Nodup →
    ∀ rem fq, tradesQtyOk tk.orderType (levelsRemOf levels) rem
      (matchLevels tk now rem fq levels).trades = true := by
  intro levels
  induction levels with
  | nil => intro _ rem fq; rfl
  | cons hd rest ih =>
    obtain ⟨pl, queue⟩ := hd
    intro hnd rem fq
    have hsplit : levelsOids ((pl, queue) :: rest) =
        queue.map (·.oid) ++ levelsOids rest := by
      simp [levelsOids]
    rw [hsplit, List.nodup_append] at hnd
    by_cases h0 : rem = 0
    · simp only [matchLevels, if_pos h0]
      rfl
    · simp only [matchLevels, if_neg h0]
      rw [tradesQtyOk_append]
      have hsum := (matchQueue_rem_fq tk now pl rem fq queue).1
      have hleft : tradesQtyOk tk.orderType (levelsRemOf ((pl, queue) :: rest)) rem
          (matchQueue tk now pl rem fq queue).trades = true := by
        have hcongr : ∀ t ∈ (matchQueue tk now pl rem fq queue).trades,
            levelsRemOf ((pl, queue) :: rest) (makerOidOf tk.orderType t) =
              queueRemOf queue (makerOidOf tk.orderType t) := by
          intro t ht
          have hmem := matchQueue_trades_maker tk now pl rem fq queue t ht
          have hany : queue.any (fun o => o.oid = makerOidOf tk.orderType t) = true := by
            rw [List.any_eq_true]
            obtain ⟨o, ho, hoe⟩ := List.mem_map.1 hmem
            exact ⟨o, ho, by simp [hoe]⟩
          simp only [levelsRemOf]
          rw [if_pos hany]
        rw [tradesQtyOk_congr tk.orderType _ _ _ hcongr]
        exact matchQueue_qty tk now pl queue hnd.1 rem fq
      have hright : tradesQtyOk tk.orderType (levelsRemOf ((pl, queue) :: rest))
          (rem - ((matchQueue tk now pl rem fq queue).trades.map (·.quantity)).sum)
          (matchLevels tk now (matchQueue tk now pl rem fq queue).rem
            (matchQueue tk now pl rem fq queue).fq rest).trades = true := by
        have hcongr : ∀ t ∈ (matchLevels tk now (matchQueue tk now pl rem fq queue).rem
              (matchQueue tk now pl rem fq queue).fq rest).trades,
            levelsRemOf ((pl, queue) :: rest) (makerOidOf tk.orderType t) =
              levelsRemOf rest (makerOidOf tk.orderType t) := by
          intro t ht
          obtain ⟨p', q', hm, hp', ho⟩ := matchLevels_maker_loc tk now _ _ rest t ht
          have hmem : makerOidOf tk.orderType t ∈ levelsOids rest := by
            rw [levelsOids, List.mem_flatMap]
            exact ⟨(p', q'), hm, ho⟩
          have hany : queue.any (fun o => o.oid = makerOidOf tk.orderType t) = false := by
            rw [List.any_eq_false]
            intro o ho'
            simp only [decide_eq_true_eq]
            intro he
            exact hnd.2.2 (he ▸ List.mem_map_of_mem (fun x => x.oid) ho') hmem
          simp only [levelsRemOf]
          rw [if_neg (by rw [hany]; exact Bool.false_ne_true)]
        rw [tradesQtyOk_congr tk.orderType _ _ _ hcongr]
        rw [← hsum]
        exact ih hnd.2.1 _ _
      rw [hleft, hright]
      rfl

/-- C2: price-time priority of `execute_limit_order`.  With the book side
sorted ascending (the `BTreeMap` iteration order) and distinct resting
order ids among the eligible levels: (a) trade prices are monotone in the
side's priority order (ascending for a Buy taker, descending for a Sell);
(b) every trade executes at the price level where its maker rests;
(c) no trade beats the taker's limit; (d) within one level the matched
makers are an initial segment of the FIFO queue; (e) no trade is at a
worse price than any level that survives with open makers; (f) every
trade's quantity is `min(taker remaining, maker remaining)`, the taker's
remaining falling with each trade. -/
theorem C2_price_time_priority (tk : EOrder) (now : Int) (ob : OrderBook) (lim : Int)
    (hp : tk.price = some lim)
    (hsort : List.Pairwise (· < ·) ((match tk.orderType with
      | OrderType.Buy => ob.asks
      | OrderType.Sell => ob.bids).map Prod.fst))
    (hnd : (levelsOids (match tk.orderType with
      | OrderType.Buy => ob.asks.filter (fun l => decide (l.1 ≤ lim))
      | OrderType.Sell => (ob.bids.filter (fun l => decide (lim ≤ l.1))).reverse)).Nodup) :
    (match tk.orderType with
     | OrderType.Buy =>
        List.Pairwise (· ≤ ·) ((execute_limit_order tk now ob).trades.map (·.price))
     | OrderType.Sell =>
        List.Pairwise (· ≥ ·) ((execute_limit_order tk now ob).trades.map (·.price))) ∧
    (∀ t ∈ (execute_limit_order tk now ob).trades,
      ∃ q, (t.price, q) ∈ (match tk.orderType with
          | OrderType.Buy => ob.asks
          | OrderType.Sell => ob.bids) ∧
        makerOidOf tk.orderType t ∈ q.map (·.oid)) ∧
    (∀ t ∈ (execute_limit_order tk now ob).trades,
      match tk.orderType with
      | OrderType.Buy => t.price ≤ lim
      | OrderType.Sell => lim ≤ t.price) ∧
    (∀ p q, (p, q) ∈ (match tk.orderType with
        | OrderType.Buy => ob.asks
        | OrderType.Sell => ob.bids) →
      ∃ k, (((execute_limit_order tk now ob).trades.filter
          (fun t => decide (t.price = p))).map (makerOidOf tk.orderType)) =
        (q.take k).map (·.oid)) ∧
    (∀ p q, (p, q) ∈ (match tk.orderType with
        | OrderType.Buy => (execute_limit_order tk now ob).book.asks
        | OrderType.Sell => (execute_limit_order tk now ob).book.bids) →
      q ≠ [] →
      ∀ t ∈ (execute_limit_order tk now ob).trades,
        match tk.orderType with
        | OrderType.Buy => t.price ≤ p
        | OrderType.Sell => p ≤ t.price) ∧
    tradesQtyOk tk.orderType
      (levelsRemOf (match tk.orderType with
        | OrderType.Buy => ob.asks.filter (fun l => decide (l.1 ≤ lim))
        | OrderType.Sell => (ob.bids.filter (fun l => decide (lim ≤ l.1))).reverse))
      tk.quantity (execute_limit_order tk now ob).trades = true := by
  cases hside : tk.orderType with
  | Buy =>
    simp only [hside] at hsort hnd
    have htr : (execute_limit_order tk now ob).trades =
        (matchLevels tk now tk.quantity tk.filledQuantity
          (ob.asks.filter (fun l => decide (l.1 ≤ lim)))).trades := by
      simp only [execute_limit_order, hp, hside]
    have hbk : (execute_limit_order tk now ob).book.asks =
        mergeSide ob.asks (fun p => decide (p ≤ lim))
          (matchLevels tk now tk.quantity tk.filledQuantity
            (ob.asks.filter (fun l => decide (l.1 ≤ lim)))).levels := by
      simp only [execute_limit_order, hp, hside]
    have hsortE : List.Pairwise (· < ·)
        ((ob.asks.filter (fun l => decide (l.1 ≤ lim))).map Prod.fst) :=
      List.Pairwise.sublist (List.Sublist.map Prod.fst (List.filter_sublist ob.asks)) hsort
    have hcall : ∀ t ∈ (matchLevels tk now tk.quantity tk.filledQuantity
        (ob.asks.filter (fun l => decide (l.1 ≤ lim)))).trades, t.price ≤ lim := by
      intro t ht
      have hmem := matchLevels_trades_price_mem tk now _ _ _ t ht
      obtain ⟨l, hl, hlp⟩ := List.mem_map.1 hmem
      have hfl := List.of_mem_filter hl
      rw [← hlp]
      simpa using hfl
    refine ⟨?_, ?_, ?_, ?_, ?_, ?_⟩
    · rw [htr]
      have := matchLevels_pairwise tk now tk.quantity tk.filledQuantity
        (ob.asks.filter (fun l => decide (l.1 ≤ lim))) hsortE
      exact this.imp (fun h => h.elim le_of_lt le_of_eq)
    · intro t ht
      rw [htr] at ht
      obtain ⟨p', q', hm, hp', ho⟩ := matchLevels_maker_loc tk now _ _ _ t ht
      rw [hside] at ho
      exact ⟨q', hp'.symm ▸ List.mem_of_mem_filter hm, ho⟩
    · intro t ht
      rw [htr] at ht
      exact hcall t ht
    · intro p q hm
      by_cases hpl : p ≤ lim
      · have hmf : (p, q) ∈ ob.asks.filter (fun l => decide (l.1 ≤ lim)) :=
          List.mem_filter.2 ⟨hm, by simpa using hpl⟩
        obtain ⟨k, hk⟩ := matchLevels_fifo tk now tk.quantity tk.filledQuantity
          (ob.asks.filter (fun l => decide (l.1 ≤ lim))) hsortE
          (fun a b h => ne_of_lt h) p q hmf
        rw [hside] at hk
        refine ⟨k, ?_⟩
        rw [htr]
        exact hk
      · refine ⟨0, ?_⟩
        rw [htr]
        have hfe : (matchLevels tk now tk.quantity tk.filledQuantity
            (ob.asks.filter (fun l => decide (l.1 ≤ lim)))).trades.filter
            (fun t => decide (t.price = p)) = [] := by
          rw [List.filter_eq_nil_iff]
          intro t ht
          simp only [decide_eq_true_eq]
          intro hpt
          exact hpl (hpt ▸ hcall t ht)
        rw [hfe]
        rfl
    · intro p q hm hq t ht
      rw [htr] at ht
      rw [hbk] at hm
      rcases mergeSide_mem ob.asks _ _ p q hm with ⟨hpf, _⟩ | ⟨_, halk⟩
      · have hple : t.price ≤ lim := hcall t ht
        have : ¬ (p ≤ lim) := by simpa using hpf
        omega
      · have hmem := alookup_mem p q _ halk
        rcases matchLevels_survivor tk now tk.quantity tk.filledQuantity
            (ob.asks.filter (fun l => decide (l.1 ≤ lim))) hsortE p q hmem hq t ht with h | h
        · exact le_of_lt h
        · exact le_of_eq h
    · rw [htr]
      have hqty := matchLevels_qty tk now _ hnd tk.quantity tk.filledQuantity
      rw [hside] at hqty
      exact hqty
  | Sell =>
    simp only [hside] at hsort hnd
    have htr : (execute_limit_order tk now ob).trades =
        (matchLevels tk now tk.quantity tk.filledQuantity
          ((ob.bids.filter (fun l => decide (lim ≤ l.1))).reverse)).trades := by
      simp only [execute_limit_order, hp, hside]
    have hbk : (execute_limit_order tk now ob).book.bids =
        mergeSide ob.bids (fun p => decide (lim ≤ p))
          (matchLevels tk now tk.quantity tk.filledQuantity
            ((ob.bids.filter (fun l => decide (lim ≤ l.1))).reverse)).levels := by
      simp only [execute_limit_order, hp, hside]
    have hsortF : List.Pairwise (· < ·)
        ((ob.bids.filter (fun l => decide (lim ≤ l.1))).map Prod.fst) :=
      List.Pairwise.sublist (List.Sublist.map Prod.fst (List.filter_sublist ob.bids)) hsort
    have hsortE : List.Pairwise (fun a b => b < a)
        (((ob.bids.filter (fun l => decide (lim ≤ l.1))).reverse).map Prod.fst) := by
      rw [List.map_reverse]
      exact List.pairwise_reverse.2 hsortF
    have hcall : ∀ t ∈ (matchLevels tk now tk.quantity tk.filledQuantity
        ((ob.bids.filter (fun l => decide (lim ≤ l.1))).reverse)).trades, lim ≤ t.price := by
      intro t ht
      have hmem := matchLevels_trades_price_mem tk now _ _ _ t ht
      rw [List.map_reverse, List.mem_reverse] at hmem
      obtain ⟨l, hl, hlp⟩ := List.mem_map.1 hmem
      have hfl := List.of_mem_filter hl
      rw [← hlp]
      simpa using hfl
    refine ⟨?_, ?_, ?_, ?_, ?_, ?_⟩
    · rw [htr]
      have := matchLevels_pairwise tk now tk.quantity tk.filledQuantity
        ((ob.bids.filter (fun l => decide (lim ≤ l.1))).reverse) hsortE
      exact this.imp (fun h => h.elim le_of_lt ge_of_eq)
    · intro t ht
      rw [htr] at ht
      obtain ⟨p', q', hm, hp', ho⟩ := matchLevels_maker_loc tk now _ _ _ t ht
      rw [List.mem_reverse] at hm
      rw [hside] at ho
      exact ⟨q', hp'.symm ▸ List.mem_of_mem_filter hm, ho⟩
    · intro t ht
      rw [htr] at ht
      exact hcall t ht
    · intro p q hm
      by_cases hpl : lim ≤ p
      · have hmf : (p, q) ∈ (ob.bids.filter (fun l => decide (lim ≤ l.1))).reverse :=
          List.mem_reverse.2 (List.mem_filter.2 ⟨hm, by simpa using hpl⟩)
        obtain ⟨k, hk⟩ := matchLevels_fifo tk now tk.quantity tk.filledQuantity
          ((ob.bids.filter (fun l => decide (lim ≤ l.1))).reverse) hsortE
          (fun a b h => (ne_of_lt h).symm) p q hmf
        rw [hside] at hk
        refine ⟨k, ?_⟩
        rw [htr]
        exact hk
      · refine ⟨0, ?_⟩
        rw [htr]
        have hfe : (matchLevels tk now tk.quantity tk.filledQuantity
            ((ob.bids.filter (fun l => decide (lim ≤ l.1))).reverse)).trades.filter
            (fun t => decide (t.price = p)) = [] := by
          rw [List.filter_eq_nil_iff]
          intro t ht
          simp only [decide_eq_true_eq]
          intro hpt
          exact hpl (hpt ▸ hcall t ht)
        rw [hfe]
        rfl
    · intro p q hm hq t ht
      rw [htr] at ht
      rw [hbk] at hm
      rcases mergeSide_mem ob.bids _ _ p q hm with ⟨hpf, _⟩ | ⟨_, halk⟩
      · have hple : lim ≤ t.price := hcall t ht
        have : ¬ (lim ≤ p) := by simpa using hpf
        omega
      · have hmem := alookup_mem p q _ halk
        rcases matchLevels_survivor tk now tk.quantity tk.filledQuantity
            ((ob.bids.filter (fun l => decide (lim ≤ l.1))).reverse) hsortE p q hmem hq t ht with h | h
        · exact le_of_lt h
        · exact le_of_eq h.symm
    · rw [htr]
      have hqty := matchLevels_qty tk now _ hnd tk.quantity tk.filledQuantity
      rw [hside] at hqty
      exact hqty

/-- Witness for C2: a Limit Buy 60 @ 10 against asks
`[(10, [order 101 qty 50]), (11, [order 102 qty 50])]` trades 50 @ 10,
and all six properties hold at this input. -/
theorem C2_witness :
    (match c7Taker.orderType with
     | OrderType.Buy =>
        List.Pairwise (· ≤ ·) ((execute_limit_order c7Taker 3 cxBook).trades.map (·.price))
     | OrderType.Sell =>
        List.Pairwise (· ≥ ·) ((execute_limit_order c7Taker 3 cxBook).trades.map (·.price))) ∧
    (∀ t ∈ (execute_limit_order c7Taker 3 cxBook).trades,
      ∃ q, (t.price, q) ∈ (match c7Taker.orderType with
          | OrderType.Buy => cxBook.asks
          | OrderType.Sell => cxBook.bids) ∧
        makerOidOf c7Taker.orderType t ∈ q.map (·.oid)) ∧
    (∀ t ∈ (execute_limit_order c7Taker 3 cxBook).trades,
      match c7Taker.orderType with
      | OrderType.Buy => t.price ≤ 10
      | OrderType.Sell => 10 ≤ t.price) ∧
    (∀ p q, (p, q) ∈ (match c7Taker.orderType with
        | OrderType.Buy => cxBook.asks
        | OrderType.Sell => cxBook.bids) →
      ∃ k, (((execute_limit_order c7Taker 3 cxBook).trades.filter
          (fun t => decide (t.price = p))).map (makerOidOf c7Taker.orderType)) =
        (q.take k).map (·.oid)) ∧
    (∀ p q, (p, q) ∈ (match c7Taker.orderType with
        | OrderType.Buy => (execute_limit_order c7Taker 3 cxBook).book.asks
        | OrderType.Sell => (execute_limit_order c7Taker 3 cxBook).book.bids) →
      q ≠ [] →
      ∀ t ∈ (execute_limit_order c7Taker 3 cxBook).trades,
        match c7Taker.orderType with
        | OrderType.Buy => t.price ≤ p
        | OrderType.Sell => p ≤ t.price) ∧
    tradesQtyOk c7Taker.orderType
      (levelsRemOf (match c7Taker.orderType with
        | OrderType.Buy => cxBook.asks.filter (fun l => decide (l.1 ≤ 10))
        | OrderType.Sell => (cxBook.bids.filter (fun l => decide (10 ≤ l.1))).reverse))
      c7Taker.quantity (execute_limit_order c7Taker 3 cxBook).trades = true :=
  C2_price_time_priority c7Taker 3 cxBook 10 rfl (by decide) (by decide)

end Trueman
